import Mathlib

/-!
FrogSpawn: `tricubic8.c`

A shallow embedding of the two point evaluators of `src/bytefuncs/tricubic8.c`,
`Tricubic` and `Trilinear`, and the properties of them that the specification states.

Modelling conventions.

* `double` is modelled twice.  `Tricubic` and `Trilinear` compute in `ℚ`: a statement about
  them is a statement in exact arithmetic.  `TricubicFl` and `TrilinearFl` are the same two
  functions with the IEEE 754 binary64 rounding `rnd` (to nearest, ties to even) applied to
  the result of every `double` operation, each expression parsed as C parses it, with no
  fused multiply-add and no extended precision; a `double` is the rational number it
  denotes, and a query point given as a decimal is first rounded.
  The two models share the integer arithmetic, the tests and the reads.
* `int` is modelled by `Int`.  The dimensions of a volume and the number of its samples are
  C `int`s, and every index expression of the two functions is bounded by the number of
  samples, so none of them leaves the `int` range on such a volume.
* The cast `(int)p` is truncation toward zero.  Where `p` is outside the `int` range C leaves
  the cast undefined; the model keeps the truncated value, which fails both thresholds for
  every dimension triple of `int`s.
* `uint8 *s` is a `List` of bytes; a pointer into it is the `Int` offset from `s`.
  Dereferencing an offset outside the list has no value (`none`), and it makes the whole
  evaluation `none`.
* Every evaluation also returns the list of the offsets it dereferenced, in order.
-/

namespace FrogSpawn

/-! ## The program -/

/-- Source: `typedef unsigned char uint8;` -/
abbrev uint8 := Fin 256

/-- The flattened sample buffer `uint8 *s`. -/
abbrev Volume := List uint8

/-- The argument `int dims[3]`, read as `xDim = dims[0]`, `yDim = dims[1]`,
`zDim = dims[2]`. -/
structure Dims where
  xDim : Int
  yDim : Int
  zDim : Int
  deriving DecidableEq, Repr

/-- Source: `#define LOC3D(x,y,z) ((x) + nx * ((y) + ny * (z)))` -/
def LOC3D (nx ny : Int) (x y z : Int) : Int := x + nx * (y + ny * z)

/-- The cast `(int)p` of a `double`: truncation toward zero. -/
def toInt (p : ℚ) : Int := Int.tdiv p.num (p.den : Int)

/-- The read `(double)(*(s + i))`: the sample at offset `i`, when `i` is inside the buffer. -/
def load (s : Volume) (i : Int) : Option ℚ :=
  if 0 ≤ i then (s.get? i.toNat).map (fun b => (b.val : ℚ)) else none

/-- A `for (i = 0; i < n; i++)` loop whose body may fail. -/
def forLoop {σ : Type} (n : Nat) (body : Nat → σ → Option σ) (st : σ) : Option σ :=
  (List.range n).foldlM (fun acc i => body i acc) st

/-- The pointer `pv` together with the log of the offsets dereferenced so far. -/
structure Walk where
  pv : Int
  reads : List Int
  deriving DecidableEq, Repr

/-- The "factors for Catmull-Rom tricubic interpolation": the array `u[4]` (likewise `v`, `w`)
for the fractional offset `d`, with `d2 = d * d` and `d3 = d2 * d`. -/
def catmullRom (d : ℚ) : Nat → ℚ
  | 0 => -0.5 * ((d * d) * d) + (d * d) - 0.5 * d
  | 1 => 1.5 * ((d * d) * d) - 2.5 * (d * d) + 1
  | 2 => -1.5 * ((d * d) * d) + 2.0 * (d * d) + 0.5 * d
  | 3 => 0.5 * ((d * d) * d) - 0.5 * (d * d)
  | _ => 0

/-- Body of the `i` loop of `Tricubic`: `r[j] += u[i] * (double)(*pv); pv++;` -/
def rowBody (s : Volume) (u : Nat → ℚ) (i : Nat) (st : Walk × ℚ) : Option (Walk × ℚ) :=
  (load s st.1.pv).map fun b =>
    ({ pv := st.1.pv + 1, reads := st.1.reads ++ [st.1.pv] }, st.2 + u i * b)

/-- Body of the `j` loop of `Tricubic`:
`r[j] = 0.0; (i loop); q[k] += v[j] * r[j]; pv += xDim - 4;` -/
def planeBody (s : Volume) (u v : Nat → ℚ) (xDim : Int) (j : Nat) (st : Walk × ℚ) :
    Option (Walk × ℚ) :=
  (forLoop 4 (rowBody s u) (st.1, 0)).map fun r =>
    ({ pv := r.1.pv + (xDim - 4), reads := r.1.reads }, st.2 + v j * r.2)

/-- Body of the `k` loop of `Tricubic`:
`q[k] = 0.0; (j loop); vox += w[k] * q[k]; pv += xyDim - 4 * xDim;` -/
def stackBody (s : Volume) (u v w : Nat → ℚ) (xDim xyDim : Int) (k : Nat) (st : Walk × ℚ) :
    Option (Walk × ℚ) :=
  (forLoop 4 (planeBody s u v xDim) (st.1, 0)).map fun q =>
    ({ pv := q.1.pv + (xyDim - 4 * xDim), reads := q.1.reads }, st.2 + w k * q.2)

/-- The linear blend `d * hi + (1-d) * lo` that `Trilinear` applies at each stage. -/
def blend (d lo hi : ℚ) : ℚ := d * hi + (1 - d) * lo

/-- The function `Trilinear(s, px, py, pz, dims)`: the value returned and the offsets read. -/
def Trilinear (s : Volume) (px py pz : ℚ) (dims : Dims) : Option (ℚ × List Int) :=
  let xDim := dims.xDim
  let yDim := dims.yDim
  let zDim := dims.zDim
  let xyDim := xDim * yDim
  let x := toInt px
  let y := toInt py
  let z := toInt pz
  if x ≤ 1 ∨ x ≥ xDim - 1 ∨ y ≤ 1 ∨ y ≥ yDim - 1 ∨ z ≤ 1 ∨ z ≥ zDim - 1 then
    some (0, [])
  else
    let dx := px - (x : ℚ)
    let dy := py - (y : ℚ)
    let dz := pz - (z : ℚ)
    let pv := (x - 1) + (y - 1) * xDim + (z - 1) * xyDim
    (load s pv).bind fun f000 =>
    (load s (pv + 1)).bind fun f001 =>
    (load s (pv + xDim)).bind fun f010 =>
    (load s (pv + xDim + 1)).bind fun f011 =>
    (load s (pv + xyDim)).bind fun f100 =>
    (load s (pv + xyDim + 1)).bind fun f101 =>
    (load s (pv + xyDim + xDim)).bind fun f110 =>
    (load s (pv + xyDim + xDim + 1)).bind fun f111 =>
    let fx00 := blend dx f000 f001
    let fx01 := blend dx f010 f011
    let fx10 := blend dx f100 f101
    let fx11 := blend dx f110 f111
    let fxy0 := blend dy fx00 fx01
    let fxy1 := blend dy fx10 fx11
    let f := blend dz fxy0 fxy1
    some (f, [pv, pv + 1, pv + xDim, pv + xDim + 1, pv + xyDim, pv + xyDim + 1,
              pv + xyDim + xDim, pv + xyDim + xDim + 1])

/-- The function `Tricubic(s, px, py, pz, dims)`: the value returned and the offsets read. -/
def Tricubic (s : Volume) (px py pz : ℚ) (dims : Dims) : Option (ℚ × List Int) :=
  let xDim := dims.xDim
  let yDim := dims.yDim
  let zDim := dims.zDim
  let xyDim := xDim * yDim
  let x := toInt px
  let y := toInt py
  let z := toInt pz
  if x ≤ 1 ∨ x ≥ xDim - 3 ∨ y ≤ 1 ∨ y ≥ yDim - 3 ∨ z ≤ 1 ∨ z ≥ zDim - 3 then
    Trilinear s px py pz dims
  else
    let dx := px - (x : ℚ)
    let dy := py - (y : ℚ)
    let dz := pz - (z : ℚ)
    let pv := (x - 1) + (y - 1) * xDim + (z - 1) * xyDim
    let u := catmullRom dx
    let v := catmullRom dy
    let w := catmullRom dz
    (forLoop 4 (stackBody s u v w xDim xyDim) ({ pv := pv, reads := [] }, 0)).map fun r =>
      (r.2, r.1.reads)

/-! ## Auxiliary definitions: what the loops compute, and the volumes of the examples -/

/-- The sample at offset `i` as a number, `0` outside the buffer. -/
def sampleD (s : Volume) (i : Int) : ℚ := ((s.getD i.toNat 0).val : ℚ)

/-- The sum of a row of four samples starting at offset `p`, weighted by `u`. -/
def rowVal (s : Volume) (u : Nat → ℚ) (p : Int) : ℚ :=
  u 0 * sampleD s p + u 1 * sampleD s (p + 1) + u 2 * sampleD s (p + 2) + u 3 * sampleD s (p + 3)

/-- The sum of four row sums, `nx` apart, weighted by `v`. -/
def planeVal (s : Volume) (u v : Nat → ℚ) (nx : Int) (p : Int) : ℚ :=
  v 0 * rowVal s u p + v 1 * rowVal s u (p + nx) + v 2 * rowVal s u (p + 2 * nx)
    + v 3 * rowVal s u (p + 3 * nx)

/-- The sum of four plane sums, `nxy` apart, weighted by `w`. -/
def stackVal (s : Volume) (u v w : Nat → ℚ) (nx nxy : Int) (p : Int) : ℚ :=
  w 0 * planeVal s u v nx p + w 1 * planeVal s u v nx (p + nxy)
    + w 2 * planeVal s u v nx (p + 2 * nxy) + w 3 * planeVal s u v nx (p + 3 * nxy)

/-- The four offsets of a row starting at `p`. -/
def rowIdx (p : Int) : List Int := [p, p + 1, p + 2, p + 3]

/-- The sixteen offsets of four rows `nx` apart. -/
def planeIdx (nx : Int) (p : Int) : List Int :=
  rowIdx p ++ rowIdx (p + nx) ++ rowIdx (p + 2 * nx) ++ rowIdx (p + 3 * nx)

/-- The sixty-four offsets of four planes `nxy` apart. -/
def stackIdx (nx nxy : Int) (p : Int) : List Int :=
  planeIdx nx p ++ planeIdx nx (p + nxy) ++ planeIdx nx (p + 2 * nxy) ++ planeIdx nx (p + 3 * nxy)

/-- The offset of the lowest corner of the neighbourhood, `(x-1) + (y-1)*xDim + (z-1)*xyDim`. -/
def corner (dims : Dims) (x y z : Int) : Int :=
  (x - 1) + (y - 1) * dims.xDim + (z - 1) * (dims.xDim * dims.yDim)

/-- The test of `Tricubic`: the point is handed to `Trilinear`. -/
def cubicRejects (dims : Dims) (x y z : Int) : Prop :=
  x ≤ 1 ∨ x ≥ dims.xDim - 3 ∨ y ≤ 1 ∨ y ≥ dims.yDim - 3 ∨ z ≤ 1 ∨ z ≥ dims.zDim - 3

/-- The test of `Trilinear`: the point gets the value `0.0`. -/
def linearRejects (dims : Dims) (x y z : Int) : Prop :=
  x ≤ 1 ∨ x ≥ dims.xDim - 1 ∨ y ≤ 1 ∨ y ≥ dims.yDim - 1 ∨ z ≤ 1 ∨ z ≥ dims.zDim - 1

instance (dims : Dims) (x y z : Int) : Decidable (cubicRejects dims x y z) := by
  unfold cubicRejects; infer_instance

instance (dims : Dims) (x y z : Int) : Decidable (linearRejects dims x y z) := by
  unfold linearRejects; infer_instance

/-- The value of `Trilinear` on the eight corner samples, by the three stages of blending. -/
def linearVal (s : Volume) (dx dy dz : ℚ) (nx nxy : Int) (p : Int) : ℚ :=
  blend dz
    (blend dy (blend dx (sampleD s p) (sampleD s (p + 1)))
      (blend dx (sampleD s (p + nx)) (sampleD s (p + nx + 1))))
    (blend dy (blend dx (sampleD s (p + nxy)) (sampleD s (p + nxy + 1)))
      (blend dx (sampleD s (p + nxy + nx)) (sampleD s (p + nxy + nx + 1))))

/-- The eight offsets that `Trilinear` reads, in the order of the source. -/
def linearIdx (nx nxy : Int) (p : Int) : List Int :=
  [p, p + 1, p + nx, p + nx + 1, p + nxy, p + nxy + 1, p + nxy + nx, p + nxy + nx + 1]

/-- Every logged offset is inside the buffer. -/
def AllIn (s : Volume) (log : List Int) : Prop :=
  ∀ i ∈ log, 0 ≤ i ∧ i < (s.length : Int)

/-- A 6x6x6 volume whose sample at offset `i` is `i mod 256`. -/
def ramp6 : Volume := (List.range 216).map fun i => Fin.ofNat i

/-- A 5x5x5 volume whose sample at offset `i` is `i mod 256`. -/
def ramp5 : Volume := (List.range 125).map fun i => Fin.ofNat i

/-- A 4x4x4 volume whose sample at offset `i` is `i`. -/
def ramp4 : Volume := (List.range 64).map fun i => Fin.ofNat i

/-- The 10x10x10 volume of constant 128. -/
def const10 : Volume := List.replicate 1000 128

/-- The 10x10x10 volume that is zero except for the sample at (5,5,5), which is 255. -/
def delta10 : Volume := (List.replicate 1000 0).set 555 255

/-! ## Definitions for the reference sums, the floor variants and further examples -/

/-- The sample of voxel `(a, b, c)` as a number: the byte at the linear index
`a + nx*(b + ny*c)`. -/
def voxel (s : Volume) (dims : Dims) (a b c : Int) : ℚ :=
  sampleD s (LOC3D dims.xDim dims.yDim a b c)

/-- The two linear weights for the fractional offset `d`: `1-d` for the low sample (index 0)
and `d` for the high sample (index 1). -/
def linWeight (d : ℚ) : Nat → ℚ
  | 0 => 1 - d
  | _ => d

/-- The 6x6x6 volume that is zero except for the sample 255 at (1,2,2), offset 85. -/
def edgeLow6 : Volume := (List.replicate 216 0).set 85 255

/-- The 6x6x6 volume that is zero except for the samples 255 at (2,2,2) and (3,2,2),
offsets 86 and 87. -/
def edgeHigh6 : Volume := ((List.replicate 216 0).set 86 255).set 87 255

/-- A 3x6x6 volume whose sample at offset `i` is `i`. -/
def ramp366 : Volume := (List.range 108).map fun i => Fin.ofNat i

/-- The one-dimensional piecewise cubic that the four weights of `Tricubic` build on the
sample sequence `s`: on the interval from sample `n` to sample `n+1`, at fractional offset
`d`, `w0(d)*s[n-1] + w1(d)*s[n] + w2(d)*s[n+1] + w3(d)*s[n+2]`. -/
def cubic1D (s : Int → ℚ) (n : Int) (d : ℚ) : ℚ :=
  catmullRom d 0 * s (n - 1) + catmullRom d 1 * s n + catmullRom d 2 * s (n + 1)
    + catmullRom d 3 * s (n + 2)

/-- The spec's alternative conversion: the mathematical floor of the coordinate. -/
def floorInt (p : ℚ) : Int := Rat.floor p

/-- The evaluator `Trilinear` with the mathematical floor in place of the cast `(int)p`,
otherwise the same text. -/
def TrilinearFloor (s : Volume) (px py pz : ℚ) (dims : Dims) : Option (ℚ × List Int) :=
  let xDim := dims.xDim
  let yDim := dims.yDim
  let zDim := dims.zDim
  let xyDim := xDim * yDim
  let x := floorInt px
  let y := floorInt py
  let z := floorInt pz
  if x ≤ 1 ∨ x ≥ xDim - 1 ∨ y ≤ 1 ∨ y ≥ yDim - 1 ∨ z ≤ 1 ∨ z ≥ zDim - 1 then
    some (0, [])
  else
    let dx := px - (x : ℚ)
    let dy := py - (y : ℚ)
    let dz := pz - (z : ℚ)
    let pv := (x - 1) + (y - 1) * xDim + (z - 1) * xyDim
    (load s pv).bind fun f000 =>
    (load s (pv + 1)).bind fun f001 =>
    (load s (pv + xDim)).bind fun f010 =>
    (load s (pv + xDim + 1)).bind fun f011 =>
    (load s (pv + xyDim)).bind fun f100 =>
    (load s (pv + xyDim + 1)).bind fun f101 =>
    (load s (pv + xyDim + xDim)).bind fun f110 =>
    (load s (pv + xyDim + xDim + 1)).bind fun f111 =>
    let fx00 := blend dx f000 f001
    let fx01 := blend dx f010 f011
    let fx10 := blend dx f100 f101
    let fx11 := blend dx f110 f111
    let fxy0 := blend dy fx00 fx01
    let fxy1 := blend dy fx10 fx11
    let f := blend dz fxy0 fxy1
    some (f, [pv, pv + 1, pv + xDim, pv + xDim + 1, pv + xyDim, pv + xyDim + 1,
              pv + xyDim + xDim, pv + xyDim + xDim + 1])

/-- The evaluator `Tricubic` with the mathematical floor in place of the cast `(int)p`,
otherwise the same text; it delegates to `TrilinearFloor`. -/
def TricubicFloor (s : Volume) (px py pz : ℚ) (dims : Dims) : Option (ℚ × List Int) :=
  let xDim := dims.xDim
  let yDim := dims.yDim
  let zDim := dims.zDim
  let xyDim := xDim * yDim
  let x := floorInt px
  let y := floorInt py
  let z := floorInt pz
  if x ≤ 1 ∨ x ≥ xDim - 3 ∨ y ≤ 1 ∨ y ≥ yDim - 3 ∨ z ≤ 1 ∨ z ≥ zDim - 3 then
    TrilinearFloor s px py pz dims
  else
    let dx := px - (x : ℚ)
    let dy := py - (y : ℚ)
    let dz := pz - (z : ℚ)
    let pv := (x - 1) + (y - 1) * xDim + (z - 1) * xyDim
    let u := catmullRom dx
    let v := catmullRom dy
    let w := catmullRom dz
    (forLoop 4 (stackBody s u v w xDim xyDim) ({ pv := pv, reads := [] }, 0)).map fun r =>
      (r.2, r.1.reads)

/-- The 6x6x6 ramp volume with the corner sample (0,0,0) replaced by 255 and the corner
sample (5,5,5), offset 215, replaced by 0. -/
def ramp6shell : Volume := (ramp6.set 0 255).set 215 0

/-! ## The same functions with a rounding after every `double` operation, and IEEE doubles -/

/-- The power `2^k` for an integer exponent `k`, as a number. -/
def pow2 (k : Int) : ℚ :=
  if 0 ≤ k then ((2 ^ k.toNat : Nat) : ℚ) else 1 / ((2 ^ (-k).toNat : Nat) : ℚ)

/-- The integer nearest to `n / d`, ties to the even one (`d > 0`). -/
def roundHalfEven (n d : Nat) : Nat :=
  let f := n / d
  let twice := 2 * (n % d)
  if twice < d then f else if d < twice then f + 1 else if f % 2 = 0 then f else f + 1

/-- The number of halvings that bring `n` below 2, at most `fuel` of them. -/
def halvings : Nat → Nat → Nat
  | 0, _ => 0
  | fuel + 1, n => if n < 2 then 0 else halvings fuel (n / 2) + 1

/-- The binary logarithm of `n >= 1`, rounded down: `2^(log2 n) <= n < 2^(log2 n + 1)`. -/
def log2 (n : Nat) : Nat := halvings n n

/-- The exponent `e` of a positive `n / d`: the integer with `2^e <= n/d < 2^(e+1)`. -/
def binExponent (n d : Nat) : Int :=
  let k : Int := (log2 n : Int) - (log2 d : Int)
  if 0 ≤ k then (if d * 2 ^ k.toNat ≤ n then k else k - 1)
  else (if d ≤ n * 2 ^ (-k).toNat then k else k - 1)

/-- IEEE 754 binary64 rounding of a number, to nearest with ties to even: 53 significant
bits, the spacing `2^(e-52)` for `2^e <= |x| < 2^(e+1)`, and never finer than `2^-1074`
(the subnormal range).  Only finite results are modelled: there is no overflow to infinity,
which needs `|x| >= 2^1024`. -/
def rnd (x : ℚ) : ℚ :=
  if x = 0 then 0 else
    let n := x.num.natAbs
    let d := x.den
    let e := max (binExponent n d) (-1022)
    let q := e - 52
    let r := if 0 ≤ q then roundHalfEven n (d * 2 ^ q.toNat)
             else roundHalfEven (n * 2 ^ (-q).toNat) d
    (if x < 0 then -1 else 1) * (r : ℚ) * pow2 q

/-- The four Catmull-Rom factors as `Tricubic` computes them, with `r` applied to the result
of every arithmetic operation: `d2 = d * d; d3 = d2 * d;` and the four assignments to
`u[0..3]`, each parsed left to right as C does. -/
def catmullRomR (r : ℚ → ℚ) (d : ℚ) : Nat → ℚ
  | 0 => r (r (r (-0.5 * r (r (d * d) * d)) + r (d * d)) - r (0.5 * d))
  | 1 => r (r (r (1.5 * r (r (d * d) * d)) - r (2.5 * r (d * d))) + 1)
  | 2 => r (r (r (-1.5 * r (r (d * d) * d)) + r (2.0 * r (d * d))) + r (0.5 * d))
  | 3 => r (r (0.5 * r (r (d * d) * d)) - r (0.5 * r (d * d)))
  | _ => 0

/-- Body of the `i` loop of `Tricubic` with `r` applied after the product and after the
sum: `r[j] += u[i] * (double)(*pv); pv++;` -/
def rowBodyR (r : ℚ → ℚ) (s : Volume) (u : Nat → ℚ) (i : Nat) (st : Walk × ℚ) :
    Option (Walk × ℚ) :=
  (load s st.1.pv).map fun b =>
    ({ pv := st.1.pv + 1, reads := st.1.reads ++ [st.1.pv] }, r (st.2 + r (u i * b)))

/-- Body of the `j` loop of `Tricubic` with `r` applied after every operation. -/
def planeBodyR (r : ℚ → ℚ) (s : Volume) (u v : Nat → ℚ) (xDim : Int) (j : Nat)
    (st : Walk × ℚ) : Option (Walk × ℚ) :=
  (forLoop 4 (rowBodyR r s u) (st.1, 0)).map fun row =>
    ({ pv := row.1.pv + (xDim - 4), reads := row.1.reads }, r (st.2 + r (v j * row.2)))

/-- Body of the `k` loop of `Tricubic` with `r` applied after every operation. -/
def stackBodyR (r : ℚ → ℚ) (s : Volume) (u v w : Nat → ℚ) (xDim xyDim : Int) (k : Nat)
    (st : Walk × ℚ) : Option (Walk × ℚ) :=
  (forLoop 4 (planeBodyR r s u v xDim) (st.1, 0)).map fun q =>
    ({ pv := q.1.pv + (xyDim - 4 * xDim), reads := q.1.reads }, r (st.2 + r (w k * q.2)))

/-- The blend `d * hi + (1-d) * lo` of `Trilinear` with `r` applied after every operation. -/
def blendR (r : ℚ → ℚ) (d lo hi : ℚ) : ℚ := r (r (d * hi) + r (r (1 - d) * lo))

/-- The function `Trilinear` with `r` applied to the result of every `double` operation;
the integer arithmetic, the test and the reads are those of `Trilinear`. -/
def TrilinearR (r : ℚ → ℚ) (s : Volume) (px py pz : ℚ) (dims : Dims) :
    Option (ℚ × List Int) :=
  let xDim := dims.xDim
  let yDim := dims.yDim
  let zDim := dims.zDim
  let xyDim := xDim * yDim
  let x := toInt px
  let y := toInt py
  let z := toInt pz
  if x ≤ 1 ∨ x ≥ xDim - 1 ∨ y ≤ 1 ∨ y ≥ yDim - 1 ∨ z ≤ 1 ∨ z ≥ zDim - 1 then
    some (0, [])
  else
    let dx := r (px - (x : ℚ))
    let dy := r (py - (y : ℚ))
    let dz := r (pz - (z : ℚ))
    let pv := (x - 1) + (y - 1) * xDim + (z - 1) * xyDim
    (load s pv).bind fun f000 =>
    (load s (pv + 1)).bind fun f001 =>
    (load s (pv + xDim)).bind fun f010 =>
    (load s (pv + xDim + 1)).bind fun f011 =>
    (load s (pv + xyDim)).bind fun f100 =>
    (load s (pv + xyDim + 1)).bind fun f101 =>
    (load s (pv + xyDim + xDim)).bind fun f110 =>
    (load s (pv + xyDim + xDim + 1)).bind fun f111 =>
    let fx00 := blendR r dx f000 f001
    let fx01 := blendR r dx f010 f011
    let fx10 := blendR r dx f100 f101
    let fx11 := blendR r dx f110 f111
    let fxy0 := blendR r dy fx00 fx01
    let fxy1 := blendR r dy fx10 fx11
    let f := blendR r dz fxy0 fxy1
    some (f, [pv, pv + 1, pv + xDim, pv + xDim + 1, pv + xyDim, pv + xyDim + 1,
              pv + xyDim + xDim, pv + xyDim + xDim + 1])

/-- The function `Tricubic` with `r` applied to the result of every `double` operation;
the integer arithmetic, the test, the pointer walk and the reads are those of `Tricubic`. -/
def TricubicR (r : ℚ → ℚ) (s : Volume) (px py pz : ℚ) (dims : Dims) :
    Option (ℚ × List Int) :=
  let xDim := dims.xDim
  let yDim := dims.yDim
  let zDim := dims.zDim
  let xyDim := xDim * yDim
  let x := toInt px
  let y := toInt py
  let z := toInt pz
  if x ≤ 1 ∨ x ≥ xDim - 3 ∨ y ≤ 1 ∨ y ≥ yDim - 3 ∨ z ≤ 1 ∨ z ≥ zDim - 3 then
    TrilinearR r s px py pz dims
  else
    let dx := r (px - (x : ℚ))
    let dy := r (py - (y : ℚ))
    let dz := r (pz - (z : ℚ))
    let pv := (x - 1) + (y - 1) * xDim + (z - 1) * xyDim
    let u := catmullRomR r dx
    let v := catmullRomR r dy
    let w := catmullRomR r dz
    (forLoop 4 (stackBodyR r s u v w xDim xyDim) ({ pv := pv, reads := [] }, 0)).map fun q =>
      (q.2, q.1.reads)

/-- The function `Tricubic` in IEEE double arithmetic. -/
def TricubicFl (s : Volume) (px py pz : ℚ) (dims : Dims) : Option (ℚ × List Int) :=
  TricubicR rnd s px py pz dims

/-- The function `Trilinear` in IEEE double arithmetic. -/
def TrilinearFl (s : Volume) (px py pz : ℚ) (dims : Dims) : Option (ℚ × List Int) :=
  TrilinearR rnd s px py pz dims

/-- The reference triple sum over `i, j, k` in `0..3` of `w[k] * v[j] * u[i] * f i j k`,
accumulated from `0.0` with `i` fastest, each product taken left to right, with `r` applied
after every operation. -/
def tripleSumR (r : ℚ → ℚ) (u v w : Nat → ℚ) (f : Nat → Nat → Nat → ℚ) : ℚ :=
  (List.range 4).foldl (fun acc k => (List.range 4).foldl (fun acc j =>
    (List.range 4).foldl (fun acc i => r (acc + r (r (r (w k * v j) * u i) * f i j k))) acc)
    acc) 0

/-- The reference sum over `a, b, c` in `{0, 1}` of `lx(a) * ly(b) * lz(c) * f a b c`,
accumulated from `0.0` with `a` fastest, each product taken left to right, with `r` applied
after every operation (the weights `1-d` included). -/
def cornerSumR (r : ℚ → ℚ) (dx dy dz : ℚ) (f : Nat → Nat → Nat → ℚ) : ℚ :=
  let lx : Nat → ℚ := fun a => if a = 0 then r (1 - dx) else dx
  let ly : Nat → ℚ := fun b => if b = 0 then r (1 - dy) else dy
  let lz : Nat → ℚ := fun c => if c = 0 then r (1 - dz) else dz
  (List.range 2).foldl (fun acc c => (List.range 2).foldl (fun acc b =>
    (List.range 2).foldl (fun acc a => r (acc + r (r (r (lx a * ly b) * lz c) * f a b c))) acc)
    acc) 0

/-! ## Lemmas on the cast, the reads and the loops -/

theorem toInt_intCast (n : Int) : toInt (n : ℚ) = n := by
  simp [toInt]

theorem toInt_frac (p : ℚ) (h : 1 ≤ toInt p) : 0 ≤ p - (toInt p : ℚ) ∧ p - (toInt p : ℚ) < 1 := by
  have hden : (0 : Int) < (p.den : Int) := by exact_mod_cast p.den_pos
  have hnum : 0 ≤ p.num := by
    by_contra hneg
    push_neg at hneg
    have : Int.tdiv p.num (p.den : Int) ≤ 0 := by
      obtain ⟨m, hm⟩ := Int.exists_eq_neg_ofNat (le_of_lt hneg)
      rw [hm, Int.neg_tdiv]
      have : 0 ≤ Int.tdiv (m : Int) (p.den : Int) := Int.tdiv_nonneg (by simp) (le_of_lt hden)
      omega
    unfold toInt at h
    omega
  have hfl : toInt p = ⌊p⌋ := by
    unfold toInt
    rw [Rat.floor_def, Int.tdiv_eq_ediv hnum (le_of_lt hden)]
  rw [hfl]
  exact ⟨sub_nonneg.mpr (Int.floor_le p), by linarith [Int.lt_floor_add_one p]⟩

theorem load_eq (s : Volume) (i : Int) (h0 : 0 ≤ i) (h1 : i < (s.length : Int)) :
    load s i = some (sampleD s i) := by
  have hlt : i.toNat < s.length := by omega
  simp [load, sampleD, h0, List.getD, List.getElem?_eq_getElem hlt]

theorem forLoop_four {σ : Type} (body : Nat → σ → Option σ) (st : σ) :
    forLoop 4 body st =
      (body 0 st).bind fun a => (body 1 a).bind fun b => (body 2 b).bind fun c => body 3 c := by
  simp [forLoop, List.range_succ, List.foldlM]

theorem rowLoop_eq (s : Volume) (u : Nat → ℚ) (wk : Walk) (a : ℚ)
    (h0 : 0 ≤ wk.pv) (h1 : wk.pv + 3 < (s.length : Int)) :
    forLoop 4 (rowBody s u) (wk, a) =
      some ({ pv := wk.pv + 4, reads := wk.reads ++ rowIdx wk.pv }, a + rowVal s u wk.pv) := by
  rw [forLoop_four]
  simp only [rowBody, load_eq s wk.pv h0 (by omega), load_eq s (wk.pv + 1) (by omega) (by omega),
    load_eq s (wk.pv + 1 + 1) (by omega) (by omega),
    load_eq s (wk.pv + 1 + 1 + 1) (by omega) (by omega), Option.map_some', Option.some_bind]
  simp [add_assoc, rowIdx, rowVal]

theorem planeBody_eq (s : Volume) (u v : Nat → ℚ) (nx : Int) (j : Nat) (wk : Walk) (a : ℚ)
    (h0 : 0 ≤ wk.pv) (h1 : wk.pv + 3 < (s.length : Int)) :
    planeBody s u v nx j (wk, a) =
      some ({ pv := wk.pv + nx, reads := wk.reads ++ rowIdx wk.pv },
        a + v j * rowVal s u wk.pv) := by
  simp [planeBody, rowLoop_eq s u wk 0 h0 h1]

theorem planeLoop_eq (s : Volume) (u v : Nat → ℚ) (nx : Int) (wk : Walk) (a : ℚ)
    (hb : ∀ j : Int, 0 ≤ j → j ≤ 3 →
      0 ≤ wk.pv + j * nx ∧ wk.pv + j * nx + 3 < (s.length : Int)) :
    forLoop 4 (planeBody s u v nx) (wk, a) =
      some ({ pv := wk.pv + 4 * nx, reads := wk.reads ++ planeIdx nx wk.pv },
        a + planeVal s u v nx wk.pv) := by
  have b0 := hb 0 (by norm_num) (by norm_num)
  have b1 := hb 1 (by norm_num) (by norm_num)
  have b2 := hb 2 (by norm_num) (by norm_num)
  have b3 := hb 3 (by norm_num) (by norm_num)
  simp only [zero_mul, add_zero, one_mul] at b0 b1
  rw [forLoop_four]
  rw [planeBody_eq s u v nx 0 wk a b0.1 b0.2]
  simp only [Option.some_bind]
  rw [planeBody_eq s u v nx 1 _ _ b1.1 b1.2]
  simp only [Option.some_bind]
  rw [planeBody_eq s u v nx 2 _ _ (by simpa [add_assoc, two_mul] using b2.1)
    (by simpa [add_assoc, two_mul] using b2.2)]
  simp only [Option.some_bind]
  rw [planeBody_eq s u v nx 3 _ _ (by have := b3.1; simp only []; linarith)
    (by have := b3.2; simp only []; linarith)]
  have e2 : wk.pv + nx + nx = wk.pv + 2 * nx := by ring
  have e3 : wk.pv + 2 * nx + nx = wk.pv + 3 * nx := by ring
  have e4 : wk.pv + 3 * nx + nx = wk.pv + 4 * nx := by ring
  simp only [e2, e3, e4, planeIdx, planeVal, List.append_assoc, add_assoc]

theorem stackBody_eq (s : Volume) (u v w : Nat → ℚ) (nx nxy : Int) (k : Nat) (wk : Walk) (a : ℚ)
    (hb : ∀ j : Int, 0 ≤ j → j ≤ 3 →
      0 ≤ wk.pv + j * nx ∧ wk.pv + j * nx + 3 < (s.length : Int)) :
    stackBody s u v w nx nxy k (wk, a) =
      some ({ pv := wk.pv + nxy, reads := wk.reads ++ planeIdx nx wk.pv },
        a + w k * planeVal s u v nx wk.pv) := by
  simp [stackBody, planeLoop_eq s u v nx wk 0 hb]

theorem stackLoop_eq (s : Volume) (u v w : Nat → ℚ) (nx nxy : Int) (wk : Walk) (a : ℚ)
    (hb : ∀ j k : Int, 0 ≤ j → j ≤ 3 → 0 ≤ k → k ≤ 3 →
      0 ≤ wk.pv + k * nxy + j * nx ∧ wk.pv + k * nxy + j * nx + 3 < (s.length : Int)) :
    forLoop 4 (stackBody s u v w nx nxy) (wk, a) =
      some ({ pv := wk.pv + 4 * nxy, reads := wk.reads ++ stackIdx nx nxy wk.pv },
        a + stackVal s u v w nx nxy wk.pv) := by
  have b0 : ∀ j : Int, 0 ≤ j → j ≤ 3 →
      0 ≤ wk.pv + j * nx ∧ wk.pv + j * nx + 3 < (s.length : Int) := fun j h0 h3 => by
    simpa using hb j 0 h0 h3 (by norm_num) (by norm_num)
  have b1 : ∀ j : Int, 0 ≤ j → j ≤ 3 →
      0 ≤ wk.pv + nxy + j * nx ∧ wk.pv + nxy + j * nx + 3 < (s.length : Int) := fun j h0 h3 => by
    simpa using hb j 1 h0 h3 (by norm_num) (by norm_num)
  have b2 : ∀ j : Int, 0 ≤ j → j ≤ 3 →
      0 ≤ wk.pv + nxy + nxy + j * nx ∧ wk.pv + nxy + nxy + j * nx + 3 < (s.length : Int) :=
    fun j h0 h3 => by
      have := hb j 2 h0 h3 (by norm_num) (by norm_num)
      constructor <;> linarith [this.1, this.2]
  have b3 : ∀ j : Int, 0 ≤ j → j ≤ 3 →
      0 ≤ wk.pv + nxy + nxy + nxy + j * nx ∧
        wk.pv + nxy + nxy + nxy + j * nx + 3 < (s.length : Int) :=
    fun j h0 h3 => by
      have := hb j 3 h0 h3 (by norm_num) (by norm_num)
      constructor <;> linarith [this.1, this.2]
  rw [forLoop_four]
  rw [stackBody_eq s u v w nx nxy 0 wk a b0]
  simp only [Option.some_bind]
  rw [stackBody_eq s u v w nx nxy 1 _ _ b1]
  simp only [Option.some_bind]
  rw [stackBody_eq s u v w nx nxy 2 _ _ b2]
  simp only [Option.some_bind]
  rw [stackBody_eq s u v w nx nxy 3 _ _ b3]
  have e2 : wk.pv + nxy + nxy = wk.pv + 2 * nxy := by ring
  have e3 : wk.pv + 2 * nxy + nxy = wk.pv + 3 * nxy := by ring
  have e4 : wk.pv + 3 * nxy + nxy = wk.pv + 4 * nxy := by ring
  simp only [e2, e3, e4, stackIdx, stackVal, List.append_assoc, add_assoc]

/-- An in-range voxel has an in-range offset. -/
theorem LOC3D_bounds (nx ny nz a b c : Int) (ha0 : 0 ≤ a) (ha : a < nx) (hb0 : 0 ≤ b)
    (hb : b < ny) (hc0 : 0 ≤ c) (hc : c < nz) :
    0 ≤ a + b * nx + c * (nx * ny) ∧ a + b * nx + c * (nx * ny) < nx * ny * nz := by
  have hnx : 0 < nx := by omega
  have hny : 0 < ny := by omega
  have h1 : 0 ≤ b * nx := mul_nonneg hb0 (le_of_lt hnx)
  have h2 : 0 ≤ c * (nx * ny) := mul_nonneg hc0 (le_of_lt (mul_pos hnx hny))
  have h3 : (b + 1) * nx ≤ ny * nx := mul_le_mul_of_nonneg_right (by omega) (le_of_lt hnx)
  have h4 : (c + 1) * (nx * ny) ≤ nz * (nx * ny) :=
    mul_le_mul_of_nonneg_right (by omega) (le_of_lt (mul_pos hnx hny))
  constructor
  · linarith
  · nlinarith

theorem Tricubic_rejected (s : Volume) (px py pz : ℚ) (dims : Dims)
    (h : cubicRejects dims (toInt px) (toInt py) (toInt pz)) :
    Tricubic s px py pz dims = Trilinear s px py pz dims := by
  unfold cubicRejects at h
  simp only [Tricubic]
  rw [if_pos h]

theorem Trilinear_rejected (s : Volume) (px py pz : ℚ) (dims : Dims)
    (h : linearRejects dims (toInt px) (toInt py) (toInt pz)) :
    Trilinear s px py pz dims = some (0, []) := by
  unfold linearRejects at h
  simp only [Trilinear]
  rw [if_pos h]

theorem Tricubic_interior (s : Volume) (px py pz : ℚ) (dims : Dims)
    (hlen : (s.length : Int) = dims.xDim * dims.yDim * dims.zDim)
    (h : ¬ cubicRejects dims (toInt px) (toInt py) (toInt pz)) :
    Tricubic s px py pz dims =
      some (stackVal s (catmullRom (px - (toInt px : ℚ))) (catmullRom (py - (toInt py : ℚ)))
              (catmullRom (pz - (toInt pz : ℚ))) dims.xDim (dims.xDim * dims.yDim)
              (corner dims (toInt px) (toInt py) (toInt pz)),
            stackIdx dims.xDim (dims.xDim * dims.yDim)
              (corner dims (toInt px) (toInt py) (toInt pz))) := by
  unfold cubicRejects at h
  simp only [Tricubic]
  rw [if_neg h]
  push_neg at h
  obtain ⟨hx0, hx1, hy0, hy1, hz0, hz1⟩ := h
  rw [stackLoop_eq]
  · simp [corner]
  · intro j k hj0 hj3 hk0 hk3
    simp only []
    rw [hlen]
    have lo := (LOC3D_bounds dims.xDim dims.yDim dims.zDim
      (toInt px - 1) (toInt py - 1 + j) (toInt pz - 1 + k)
      (by omega) (by omega) (by omega) (by omega) (by omega) (by omega)).1
    have hi := (LOC3D_bounds dims.xDim dims.yDim dims.zDim
      (toInt px + 2) (toInt py - 1 + j) (toInt pz - 1 + k)
      (by omega) (by omega) (by omega) (by omega) (by omega) (by omega)).2
    constructor <;> linarith

theorem Trilinear_interior (s : Volume) (px py pz : ℚ) (dims : Dims)
    (hlen : (s.length : Int) = dims.xDim * dims.yDim * dims.zDim)
    (h : ¬ linearRejects dims (toInt px) (toInt py) (toInt pz)) :
    Trilinear s px py pz dims =
      some (linearVal s (px - (toInt px : ℚ)) (py - (toInt py : ℚ)) (pz - (toInt pz : ℚ))
              dims.xDim (dims.xDim * dims.yDim) (corner dims (toInt px) (toInt py) (toInt pz)),
            linearIdx dims.xDim (dims.xDim * dims.yDim)
              (corner dims (toInt px) (toInt py) (toInt pz))) := by
  unfold linearRejects at h
  simp only [Trilinear]
  rw [if_neg h]
  push_neg at h
  obtain ⟨hx0, hx1, hy0, hy1, hz0, hz1⟩ := h
  have bd : ∀ a b c : Int, 0 ≤ a → a ≤ 1 → 0 ≤ b → b ≤ 1 → 0 ≤ c → c ≤ 1 →
      0 ≤ (toInt px - 1 + a) + (toInt py - 1 + b) * dims.xDim
            + (toInt pz - 1 + c) * (dims.xDim * dims.yDim) ∧
        (toInt px - 1 + a) + (toInt py - 1 + b) * dims.xDim
            + (toInt pz - 1 + c) * (dims.xDim * dims.yDim) < (s.length : Int) := by
    intro a b c ha0 ha1 hb0 hb1 hc0 hc1
    rw [hlen]
    exact LOC3D_bounds _ _ _ _ _ _ (by omega) (by omega) (by omega) (by omega) (by omega)
      (by omega)
  have b000 := bd 0 0 0 (by norm_num) (by norm_num) (by norm_num) (by norm_num) (by norm_num) (by norm_num)
  have b001 := bd 1 0 0 (by norm_num) (by norm_num) (by norm_num) (by norm_num) (by norm_num) (by norm_num)
  have b010 := bd 0 1 0 (by norm_num) (by norm_num) (by norm_num) (by norm_num) (by norm_num) (by norm_num)
  have b011 := bd 1 1 0 (by norm_num) (by norm_num) (by norm_num) (by norm_num) (by norm_num) (by norm_num)
  have b100 := bd 0 0 1 (by norm_num) (by norm_num) (by norm_num) (by norm_num) (by norm_num) (by norm_num)
  have b101 := bd 1 0 1 (by norm_num) (by norm_num) (by norm_num) (by norm_num) (by norm_num) (by norm_num)
  have b110 := bd 0 1 1 (by norm_num) (by norm_num) (by norm_num) (by norm_num) (by norm_num) (by norm_num)
  have b111 := bd 1 1 1 (by norm_num) (by norm_num) (by norm_num) (by norm_num) (by norm_num) (by norm_num)
  rw [load_eq s _ (by linarith [b000.1]) (by linarith [b000.2]),
    load_eq s _ (by linarith [b001.1]) (by linarith [b001.2]),
    load_eq s _ (by linarith [b010.1]) (by linarith [b010.2]),
    load_eq s _ (by linarith [b011.1]) (by linarith [b011.2]),
    load_eq s _ (by linarith [b100.1]) (by linarith [b100.2]),
    load_eq s _ (by linarith [b101.1]) (by linarith [b101.2]),
    load_eq s _ (by linarith [b110.1]) (by linarith [b110.2]),
    load_eq s _ (by linarith [b111.1]) (by linarith [b111.2])]
  simp [linearVal, linearIdx, corner]

theorem load_some_bounds {s : Volume} {i : Int} {b : ℚ} (h : load s i = some b) :
    0 ≤ i ∧ i < (s.length : Int) := by
  unfold load at h
  split at h
  · rename_i h0
    refine ⟨h0, ?_⟩
    by_contra hge
    have : s.length ≤ i.toNat := by omega
    simp [List.getElem?_eq_none this] at h
  · simp at h

theorem AllIn_snoc {s : Volume} {log : List Int} {i : Int} {b : ℚ} (hl : AllIn s log)
    (h : load s i = some b) : AllIn s (log ++ [i]) := by
  intro k hk
  rcases List.mem_append.mp hk with hk | hk
  · exact hl k hk
  · rw [List.mem_singleton.mp hk]
    exact load_some_bounds h

theorem forLoop_inv {σ : Type} (P : σ → Prop) (body : Nat → σ → Option σ)
    (hbody : ∀ i st st', P st → body i st = some st' → P st') :
    ∀ (l : List Nat) (st st' : σ), P st →
      l.foldlM (fun acc i => body i acc) st = some st' → P st' := by
  intro l
  induction l with
  | nil =>
    intro st st' hP h
    simp at h
    exact h ▸ hP
  | cons a l ih =>
    intro st st' hP h
    simp only [List.foldlM] at h
    cases hb : body a st with
    | none => simp [hb] at h
    | some st1 =>
      simp only [hb, Option.bind_eq_bind, Option.some_bind] at h
      exact ih st1 st' (hbody a st st1 hP hb) h

theorem rowBody_inv (s : Volume) (u : Nat → ℚ) (i : Nat) (st st' : Walk × ℚ)
    (hP : AllIn s st.1.reads) (h : rowBody s u i st = some st') : AllIn s st'.1.reads := by
  unfold rowBody at h
  cases hl : load s st.1.pv with
  | none => simp [hl] at h
  | some b =>
    simp only [hl, Option.map_some', Option.some.injEq] at h
    rw [← h]
    exact AllIn_snoc hP hl

theorem planeBody_inv (s : Volume) (u v : Nat → ℚ) (nx : Int) (j : Nat) (st st' : Walk × ℚ)
    (hP : AllIn s st.1.reads) (h : planeBody s u v nx j st = some st') :
    AllIn s st'.1.reads := by
  unfold planeBody at h
  cases hl : forLoop 4 (rowBody s u) (st.1, 0) with
  | none => simp [hl] at h
  | some r =>
    simp only [hl, Option.map_some', Option.some.injEq] at h
    rw [← h]
    exact forLoop_inv (fun st => AllIn s st.1.reads) (rowBody s u) (rowBody_inv s u)
      (List.range 4) (st.1, 0) r hP hl

theorem stackBody_inv (s : Volume) (u v w : Nat → ℚ) (nx nxy : Int) (k : Nat)
    (st st' : Walk × ℚ) (hP : AllIn s st.1.reads)
    (h : stackBody s u v w nx nxy k st = some st') : AllIn s st'.1.reads := by
  unfold stackBody at h
  cases hl : forLoop 4 (planeBody s u v nx) (st.1, 0) with
  | none => simp [hl] at h
  | some r =>
    simp only [hl, Option.map_some', Option.some.injEq] at h
    rw [← h]
    exact forLoop_inv (fun st => AllIn s st.1.reads) (planeBody s u v nx) (planeBody_inv s u v nx)
      (List.range 4) (st.1, 0) r hP hl

/-- Whatever the buffer is, `Trilinear` logs only offsets it could read. -/
theorem Trilinear_reads_loaded (s : Volume) (px py pz : ℚ) (dims : Dims) (v : ℚ)
    (log : List Int) (h : Trilinear s px py pz dims = some (v, log)) : AllIn s log := by
  by_cases hr : linearRejects dims (toInt px) (toInt py) (toInt pz)
  · rw [Trilinear_rejected s px py pz dims hr] at h
    simp only [Option.some.injEq, Prod.mk.injEq] at h
    rw [← h.2]
    intro i hi
    simp at hi
  · unfold linearRejects at hr
    simp only [Trilinear] at h
    rw [if_neg hr] at h
    simp only [Option.bind_eq_some] at h
    obtain ⟨f000, h000, f001, h001, f010, h010, f011, h011, f100, h100, f101, h101, f110, h110,
      f111, h111, hres⟩ := h
    simp only [Option.some.injEq, Prod.mk.injEq] at hres
    rw [← hres.2]
    intro i hi
    simp only [List.mem_cons, List.mem_singleton, List.not_mem_nil, or_false] at hi
    rcases hi with rfl | rfl | rfl | rfl | rfl | rfl | rfl | rfl
    · exact load_some_bounds h000
    · exact load_some_bounds h001
    · exact load_some_bounds h010
    · exact load_some_bounds h011
    · exact load_some_bounds h100
    · exact load_some_bounds h101
    · exact load_some_bounds h110
    · exact load_some_bounds h111

/-- Whatever the buffer is, `Tricubic` logs only offsets it could read. -/
theorem Tricubic_reads_loaded (s : Volume) (px py pz : ℚ) (dims : Dims) (v : ℚ)
    (log : List Int) (h : Tricubic s px py pz dims = some (v, log)) : AllIn s log := by
  simp only [Tricubic] at h
  split at h
  · exact Trilinear_reads_loaded s px py pz dims v log h
  · simp only [Option.map_eq_some'] at h
    obtain ⟨r, hr, hres⟩ := h
    simp only [Prod.mk.injEq] at hres
    rw [← hres.2]
    exact forLoop_inv (fun st => AllIn s st.1.reads) _ (stackBody_inv s _ _ _ _ _)
      (List.range 4) _ r (by intro i hi; simp at hi) hr

theorem toInt_eq_floor {p : ℚ} (h : 0 ≤ p) : toInt p = ⌊p⌋ := by
  have hden : (0 : Int) < (p.den : Int) := by exact_mod_cast p.den_pos
  unfold toInt
  rw [Rat.floor_def, Int.tdiv_eq_ediv (Rat.num_nonneg.mpr h) (le_of_lt hden)]

theorem toInt_eq_of_bounds {p : ℚ} (n : Int) (h0 : 0 ≤ n) (h1 : (n : ℚ) ≤ p) (h2 : p < n + 1) :
    toInt p = n := by
  have hn : (0 : ℚ) ≤ (n : ℚ) := by exact_mod_cast h0
  rw [toInt_eq_floor (le_trans hn h1)]
  exact Int.floor_eq_iff.mpr ⟨h1, h2⟩

theorem toInt_half : toInt (0.5 : ℚ) = 0 :=
  toInt_eq_of_bounds 0 (by norm_num) (by norm_num) (by norm_num)

theorem toInt_fifth : toInt (0.2 : ℚ) = 0 :=
  toInt_eq_of_bounds 0 (by norm_num) (by norm_num) (by norm_num)

theorem stackIdx_length (nx nxy p : Int) : (stackIdx nx nxy p).length = 64 := by
  simp [stackIdx, planeIdx, rowIdx]

theorem linearIdx_length (nx nxy p : Int) : (linearIdx nx nxy p).length = 8 := by
  simp [linearIdx]

theorem catmullRom_sum (d : ℚ) :
    catmullRom d 0 + catmullRom d 1 + catmullRom d 2 + catmullRom d 3 = 1 := by
  simp only [catmullRom]
  norm_num
  ring

theorem catmullRom_zero :
    catmullRom 0 0 = 0 ∧ catmullRom 0 1 = 1 ∧ catmullRom 0 2 = 0 ∧ catmullRom 0 3 = 0 := by
  simp [catmullRom]

theorem toInt_two_half : toInt (2.5 : ℚ) = 2 :=
  toInt_eq_of_bounds 2 (by norm_num) (by norm_num) (by norm_num)

theorem sampleD_eq_get (s : Volume) (i : Int) (h0 : 0 ≤ i) (h1 : i < (s.length : Int)) :
    ∃ b : uint8, s.get? i.toNat = some b ∧ sampleD s i = (b.val : ℚ) := by
  have hlt : i.toNat < s.length := by omega
  exact ⟨s[i.toNat], by simp [List.getElem?_eq_getElem hlt],
    by simp [sampleD, List.getD, List.getElem?_eq_getElem hlt]⟩

theorem sampleD_const (s : Volume) (c : uint8) (hc : ∀ b ∈ s, b = c) (i : Int) (h0 : 0 ≤ i)
    (h1 : i < (s.length : Int)) : sampleD s i = (c.val : ℚ) := by
  obtain ⟨b, hb, e⟩ := sampleD_eq_get s i h0 h1
  rw [e, hc b (List.get?_mem hb)]

theorem sampleD_range (s : Volume) (i : Int) : 0 ≤ sampleD s i ∧ sampleD s i ≤ 255 := by
  unfold sampleD
  have h := (s.getD i.toNat 0).isLt
  constructor
  · exact_mod_cast Nat.zero_le _
  · have : ((s.getD i.toNat 0).val : ℚ) ≤ ((255 : Nat) : ℚ) := by
      exact_mod_cast Nat.lt_succ_iff.mp h
    simpa using this

theorem Tricubic_at_grid (s : Volume) (dims : Dims) (x y z : Int)
    (hlen : (s.length : Int) = dims.xDim * dims.yDim * dims.zDim)
    (h : ¬ cubicRejects dims x y z) :
    Tricubic s (x : ℚ) (y : ℚ) (z : ℚ) dims =
      some (sampleD s (LOC3D dims.xDim dims.yDim x y z),
        stackIdx dims.xDim (dims.xDim * dims.yDim) (corner dims x y z)) := by
  have e := Tricubic_interior s x y z dims hlen (by simpa only [toInt_intCast] using h)
  simp only [toInt_intCast, sub_self] at e
  rw [e]
  obtain ⟨c0, c1, c2, c3⟩ := catmullRom_zero
  simp only [stackVal, planeVal, rowVal, c0, c1, c2, c3, zero_mul, one_mul, zero_add, add_zero]
  have : corner dims x y z + dims.xDim * dims.yDim + dims.xDim + 1
      = LOC3D dims.xDim dims.yDim x y z := by
    simp only [corner, LOC3D]; ring
  rw [this]

theorem Trilinear_at_grid (s : Volume) (dims : Dims) (x y z : Int)
    (hlen : (s.length : Int) = dims.xDim * dims.yDim * dims.zDim)
    (h : ¬ linearRejects dims x y z) :
    Trilinear s (x : ℚ) (y : ℚ) (z : ℚ) dims =
      some (sampleD s (LOC3D dims.xDim dims.yDim (x - 1) (y - 1) (z - 1)),
        linearIdx dims.xDim (dims.xDim * dims.yDim) (corner dims x y z)) := by
  have e := Trilinear_interior s x y z dims hlen (by simpa only [toInt_intCast] using h)
  simp only [toInt_intCast, sub_self] at e
  rw [e]
  have : corner dims x y z = LOC3D dims.xDim dims.yDim (x - 1) (y - 1) (z - 1) := by
    simp only [corner, LOC3D]; ring
  simp [linearVal, blend, this]

theorem rowVal_const (s : Volume) (u : Nat → ℚ) (p : Int) (c : ℚ)
    (h : ∀ i ∈ rowIdx p, sampleD s i = c) :
    rowVal s u p = (u 0 + u 1 + u 2 + u 3) * c := by
  simp only [rowVal, h p (by simp [rowIdx]), h (p + 1) (by simp [rowIdx]),
    h (p + 2) (by simp [rowIdx]), h (p + 3) (by simp [rowIdx])]
  ring

theorem planeVal_const (s : Volume) (u v : Nat → ℚ) (nx p : Int) (c : ℚ)
    (h : ∀ i ∈ planeIdx nx p, sampleD s i = c) :
    planeVal s u v nx p = (v 0 + v 1 + v 2 + v 3) * ((u 0 + u 1 + u 2 + u 3) * c) := by
  simp only [planeVal,
    rowVal_const s u p c (fun i hi => h i (by simp [planeIdx, hi])),
    rowVal_const s u (p + nx) c (fun i hi => h i (by simp [planeIdx, hi])),
    rowVal_const s u (p + 2 * nx) c (fun i hi => h i (by simp [planeIdx, hi])),
    rowVal_const s u (p + 3 * nx) c (fun i hi => h i (by simp [planeIdx, hi]))]
  ring

theorem stackVal_const (s : Volume) (u v w : Nat → ℚ) (nx nxy p : Int) (c : ℚ)
    (h : ∀ i ∈ stackIdx nx nxy p, sampleD s i = c) :
    stackVal s u v w nx nxy p =
      (w 0 + w 1 + w 2 + w 3) * ((v 0 + v 1 + v 2 + v 3) * ((u 0 + u 1 + u 2 + u 3) * c)) := by
  simp only [stackVal,
    planeVal_const s u v nx p c (fun i hi => h i (by simp [stackIdx, hi])),
    planeVal_const s u v nx (p + nxy) c (fun i hi => h i (by simp [stackIdx, hi])),
    planeVal_const s u v nx (p + 2 * nxy) c (fun i hi => h i (by simp [stackIdx, hi])),
    planeVal_const s u v nx (p + 3 * nxy) c (fun i hi => h i (by simp [stackIdx, hi]))]
  ring

theorem blend_ge {d lo hi m : ℚ} (h0 : 0 ≤ d) (h1 : d ≤ 1) (hlo : m ≤ lo) (hhi : m ≤ hi) :
    m ≤ blend d lo hi := by
  unfold blend
  nlinarith [mul_le_mul_of_nonneg_left hhi h0, mul_le_mul_of_nonneg_left hlo (sub_nonneg.mpr h1)]

theorem blend_le {d lo hi m : ℚ} (h0 : 0 ≤ d) (h1 : d ≤ 1) (hlo : lo ≤ m) (hhi : hi ≤ m) :
    blend d lo hi ≤ m := by
  unfold blend
  nlinarith [mul_le_mul_of_nonneg_left hhi h0, mul_le_mul_of_nonneg_left hlo (sub_nonneg.mpr h1)]

theorem linearVal_ge (s : Volume) (dx dy dz : ℚ) (nx nxy p : Int) (m : ℚ)
    (hx : 0 ≤ dx ∧ dx ≤ 1) (hy : 0 ≤ dy ∧ dy ≤ 1) (hz : 0 ≤ dz ∧ dz ≤ 1)
    (h : ∀ i ∈ linearIdx nx nxy p, m ≤ sampleD s i) :
    m ≤ linearVal s dx dy dz nx nxy p := by
  unfold linearVal
  have hm : ∀ i, i ∈ linearIdx nx nxy p → m ≤ sampleD s i := h
  simp only [linearIdx, List.mem_cons, List.mem_singleton, List.not_mem_nil, or_false] at hm
  refine blend_ge hz.1 hz.2 (blend_ge hy.1 hy.2 (blend_ge hx.1 hx.2 ?_ ?_)
    (blend_ge hx.1 hx.2 ?_ ?_)) (blend_ge hy.1 hy.2 (blend_ge hx.1 hx.2 ?_ ?_)
    (blend_ge hx.1 hx.2 ?_ ?_)) <;> apply hm <;> simp

theorem linearVal_le (s : Volume) (dx dy dz : ℚ) (nx nxy p : Int) (m : ℚ)
    (hx : 0 ≤ dx ∧ dx ≤ 1) (hy : 0 ≤ dy ∧ dy ≤ 1) (hz : 0 ≤ dz ∧ dz ≤ 1)
    (h : ∀ i ∈ linearIdx nx nxy p, sampleD s i ≤ m) :
    linearVal s dx dy dz nx nxy p ≤ m := by
  unfold linearVal
  have hm : ∀ i, i ∈ linearIdx nx nxy p → sampleD s i ≤ m := h
  simp only [linearIdx, List.mem_cons, List.mem_singleton, List.not_mem_nil, or_false] at hm
  refine blend_le hz.1 hz.2 (blend_le hy.1 hy.2 (blend_le hx.1 hx.2 ?_ ?_)
    (blend_le hx.1 hx.2 ?_ ?_)) (blend_le hy.1 hy.2 (blend_le hx.1 hx.2 ?_ ?_)
    (blend_le hx.1 hx.2 ?_ ?_)) <;> apply hm <;> simp

theorem sampleD_delta_ne (n k : Nat) (b : uint8) (i : Int) (hne : k ≠ i.toNat) :
    sampleD ((List.replicate n 0).set k b) i = 0 := by
  unfold sampleD
  rw [List.getD_eq_getElem?_getD, List.getElem?_set_ne hne, List.getElem?_replicate]
  split <;> simp

/-! ## Lemmas on the reference sums, the read log and the floor variants -/

theorem toInt_nonpos_of_neg (p : ℚ) (h : p < 0) : toInt p ≤ 0 := by
  have hden : (0 : Int) < (p.den : Int) := by exact_mod_cast p.den_pos
  have hnum : p.num < 0 := Rat.num_neg.mpr h
  obtain ⟨m, hm⟩ := Int.exists_eq_neg_ofNat (le_of_lt hnum)
  unfold toInt
  rw [hm, Int.neg_tdiv]
  have : 0 ≤ Int.tdiv (m : Int) (p.den : Int) := Int.tdiv_nonneg (by simp) (le_of_lt hden)
  omega

theorem rowVal_eq_sum (s : Volume) (u : Nat → ℚ) (p : Int) :
    rowVal s u p = ∑ i in Finset.range 4, u i * sampleD s (p + (i : Int)) := by
  simp only [rowVal, Finset.sum_range_succ, Finset.sum_range_zero]
  push_cast
  simp

theorem planeVal_eq_sum (s : Volume) (u v : Nat → ℚ) (nx p : Int) :
    planeVal s u v nx p =
      ∑ j in Finset.range 4, v j * rowVal s u (p + (j : Int) * nx) := by
  simp only [planeVal, Finset.sum_range_succ, Finset.sum_range_zero]
  push_cast
  simp

theorem stackVal_eq_sum (s : Volume) (u v w : Nat → ℚ) (nx nxy p : Int) :
    stackVal s u v w nx nxy p =
      ∑ k in Finset.range 4, w k * planeVal s u v nx (p + (k : Int) * nxy) := by
  simp only [stackVal, Finset.sum_range_succ, Finset.sum_range_zero]
  push_cast
  simp

theorem stackVal_eq_voxel_sum (s : Volume) (dims : Dims) (u v w : Nat → ℚ) (x y z : Int) :
    stackVal s u v w dims.xDim (dims.xDim * dims.yDim) (corner dims x y z) =
      ∑ k in Finset.range 4, ∑ j in Finset.range 4, ∑ i in Finset.range 4,
        w k * v j * u i *
          voxel s dims (x - 1 + (i : Int)) (y - 1 + (j : Int)) (z - 1 + (k : Int)) := by
  rw [stackVal_eq_sum]
  refine Finset.sum_congr rfl fun k _ => ?_
  rw [planeVal_eq_sum, Finset.mul_sum]
  refine Finset.sum_congr rfl fun j _ => ?_
  rw [rowVal_eq_sum, Finset.mul_sum, Finset.mul_sum]
  refine Finset.sum_congr rfl fun i _ => ?_
  have e : corner dims x y z + (k : Int) * (dims.xDim * dims.yDim) + (j : Int) * dims.xDim
      + (i : Int) = LOC3D dims.xDim dims.yDim (x - 1 + (i : Int)) (y - 1 + (j : Int))
        (z - 1 + (k : Int)) := by
    simp only [corner, LOC3D]; ring
  rw [voxel, e]
  ring

theorem linearVal_eq_sum (s : Volume) (dims : Dims) (dx dy dz : ℚ) (x y z : Int) :
    linearVal s dx dy dz dims.xDim (dims.xDim * dims.yDim) (corner dims x y z) =
      ∑ c in Finset.range 2, ∑ b in Finset.range 2, ∑ a in Finset.range 2,
        linWeight dx a * linWeight dy b * linWeight dz c *
          voxel s dims (x - 1 + (a : Int)) (y - 1 + (b : Int)) (z - 1 + (c : Int)) := by
  simp only [linearVal, blend, voxel, LOC3D, corner, linWeight, Finset.sum_range_succ,
    Finset.sum_range_zero]
  push_cast
  ring_nf

theorem stackIdx_chain (nx nxy p : Int) (h1 : 3 < nx) (h2 : 3 * nx + 3 < nxy) :
    List.Chain' (fun a b : Int => a < b) (stackIdx nx nxy p) := by
  simp only [stackIdx, planeIdx, rowIdx, List.cons_append, List.nil_append, List.append_assoc,
    List.chain'_cons, List.chain'_singleton, and_true]
  omega

theorem stackIdx_nodup (nx nxy p : Int) (h1 : 3 < nx) (h2 : 3 * nx + 3 < nxy) :
    (stackIdx nx nxy p).Nodup := by
  have hs : List.Sorted (fun a b : Int => a < b) (stackIdx nx nxy p) :=
    List.chain'_iff_pairwise.mp (stackIdx_chain nx nxy p h1 h2)
  exact hs.nodup

theorem mem_rowIdx (p : Int) (i : Nat) (hi : i < 4) : p + (i : Int) ∈ rowIdx p := by
  interval_cases i <;> simp [rowIdx]

theorem mem_planeIdx (nx p q : Int) (j : Nat) (hj : j < 4)
    (h : q ∈ rowIdx (p + (j : Int) * nx)) : q ∈ planeIdx nx p := by
  interval_cases j <;> simp only [planeIdx, List.mem_append] <;> simp at h <;> simp [h]

theorem mem_stackIdx (nx nxy p q : Int) (k : Nat) (hk : k < 4)
    (h : q ∈ planeIdx nx (p + (k : Int) * nxy)) : q ∈ stackIdx nx nxy p := by
  interval_cases k <;> simp only [stackIdx, List.mem_append] <;> simp at h <;> simp [h]

theorem LOC3D_mem_stackIdx (dims : Dims) (x y z : Int) (i j k : Nat) (hi : i < 4) (hj : j < 4)
    (hk : k < 4) :
    LOC3D dims.xDim dims.yDim (x - 1 + (i : Int)) (y - 1 + (j : Int)) (z - 1 + (k : Int)) ∈
      stackIdx dims.xDim (dims.xDim * dims.yDim) (corner dims x y z) := by
  have e : LOC3D dims.xDim dims.yDim (x - 1 + (i : Int)) (y - 1 + (j : Int)) (z - 1 + (k : Int))
      = corner dims x y z + (k : Int) * (dims.xDim * dims.yDim) + (j : Int) * dims.xDim
        + (i : Int) := by
    simp only [corner, LOC3D]; ring
  rw [e]
  exact mem_stackIdx _ _ _ _ k hk (mem_planeIdx _ _ _ j hj (mem_rowIdx _ i hi))

theorem sampleD_replicate_zero (n : Nat) (i : Int) : sampleD (List.replicate n 0) i = 0 := by
  unfold sampleD
  rw [List.getD_eq_getElem?_getD, List.getElem?_replicate]
  split <;> simp

theorem sampleD_set_ne (l : Volume) (k : Nat) (b : uint8) (i : Int) (hne : k ≠ i.toNat) :
    sampleD (l.set k b) i = sampleD l i := by
  unfold sampleD
  rw [List.getD_eq_getElem?_getD, List.getD_eq_getElem?_getD, List.getElem?_set_ne hne]

theorem sampleD_set_self (l : Volume) (k : Nat) (b : uint8) (i : Int) (he : i.toNat = k)
    (hk : k < l.length) : sampleD (l.set k b) i = (b.val : ℚ) := by
  unfold sampleD
  rw [List.getD_eq_getElem?_getD, he, List.getElem?_set_self hk]
  simp

theorem toInt_two : toInt (2 : ℚ) = 2 := toInt_intCast 2

theorem catmullRom_half :
    catmullRom 0.5 0 = -0.0625 ∧ catmullRom 0.5 1 = 0.5625 ∧ catmullRom 0.5 2 = 0.5625 ∧
      catmullRom 0.5 3 = -0.0625 := by
  simp only [catmullRom]
  norm_num

/-- With no fractional offset along `y` and `z`, the stacked sum is the row sum through the
centre. -/
theorem stackVal_row (s : Volume) (u : Nat → ℚ) (nx nxy p : Int) :
    stackVal s u (catmullRom 0) (catmullRom 0) nx nxy p = rowVal s u (p + nxy + nx) := by
  obtain ⟨c0, c1, c2, c3⟩ := catmullRom_zero
  simp only [stackVal, planeVal, c0, c1, c2, c3, zero_mul, one_mul, zero_add, add_zero]

theorem mem_linearIdx (dims : Dims) (x y z : Int) (a b c : Nat) (ha : a < 2) (hb : b < 2)
    (hc : c < 2) :
    LOC3D dims.xDim dims.yDim (x - 1 + (a : Int)) (y - 1 + (b : Int)) (z - 1 + (c : Int)) ∈
      linearIdx dims.xDim (dims.xDim * dims.yDim) (corner dims x y z) := by
  interval_cases a <;> interval_cases b <;> interval_cases c <;>
    simp only [linearIdx, corner, LOC3D, List.mem_cons, Nat.cast_zero, Nat.cast_one] <;>
    ring_nf <;> simp

theorem catmullRom_moment (d : ℚ) :
    catmullRom d 1 + 2 * catmullRom d 2 + 3 * catmullRom d 3 = 1 + d := by
  simp only [catmullRom]
  ring

theorem sampleD_congr (s1 s2 : Volume) (i : Int) (h : s1.get? i.toNat = s2.get? i.toNat) :
    sampleD s1 i = sampleD s2 i := by
  unfold sampleD
  rw [List.getD_eq_getElem?_getD, List.getD_eq_getElem?_getD, ← List.get?_eq_getElem?,
    ← List.get?_eq_getElem?, h]

theorem sampleD_ramp (n : Nat) (hn : n ≤ 256) (i : Int) (h0 : 0 ≤ i) (h1 : i < (n : Int)) :
    sampleD ((List.range n).map fun k => Fin.ofNat k) i = (i : ℚ) := by
  have hlt : i.toNat < n := by omega
  unfold sampleD
  rw [List.getD_eq_getElem?_getD, List.getElem?_map, List.getElem?_range hlt]
  simp only [Option.map_some', Option.getD_some, Fin.ofNat]
  have hmod : i.toNat % (255 + 1) = i.toNat := Nat.mod_eq_of_lt (by omega)
  simp only [hmod]
  have : ((i.toNat : Int) : ℚ) = (i : ℚ) := by rw [Int.toNat_of_nonneg h0]
  exact_mod_cast this

theorem floorInt_eq_toInt (p : ℚ) (h : 0 ≤ p) : floorInt p = toInt p := by
  rw [toInt_eq_floor h]
  rfl

theorem floorInt_neg (p : ℚ) (h : p < 0) : floorInt p ≤ 0 := by
  have h1 : floorInt p = ⌊p⌋ := rfl
  rw [h1]
  have := Int.floor_le p
  have h2 : ((⌊p⌋ : Int) : ℚ) < 0 := lt_of_le_of_lt this h
  have h3 : ⌊p⌋ < 0 := by exact_mod_cast h2
  omega

theorem TrilinearFloor_of_eq (s : Volume) (px py pz : ℚ) (dims : Dims)
    (hx : floorInt px = toInt px) (hy : floorInt py = toInt py) (hz : floorInt pz = toInt pz) :
    TrilinearFloor s px py pz dims = Trilinear s px py pz dims := by
  simp only [TrilinearFloor, Trilinear, hx, hy, hz]

theorem TricubicFloor_of_eq (s : Volume) (px py pz : ℚ) (dims : Dims)
    (hx : floorInt px = toInt px) (hy : floorInt py = toInt py) (hz : floorInt pz = toInt pz) :
    TricubicFloor s px py pz dims = Tricubic s px py pz dims := by
  simp only [TricubicFloor, Tricubic, hx, hy, hz, TrilinearFloor_of_eq s px py pz dims hx hy hz]

theorem TrilinearFloor_rejected (s : Volume) (px py pz : ℚ) (dims : Dims)
    (h : linearRejects dims (floorInt px) (floorInt py) (floorInt pz)) :
    TrilinearFloor s px py pz dims = some (0, []) := by
  unfold linearRejects at h
  simp only [TrilinearFloor]
  rw [if_pos h]

theorem TricubicFloor_rejected (s : Volume) (px py pz : ℚ) (dims : Dims)
    (h : cubicRejects dims (floorInt px) (floorInt py) (floorInt pz)) :
    TricubicFloor s px py pz dims = TrilinearFloor s px py pz dims := by
  unfold cubicRejects at h
  simp only [TricubicFloor]
  rw [if_pos h]

theorem sum4_affine (u : Nat → ℚ) (d α β : ℚ) (su : u 0 + u 1 + u 2 + u 3 = 1)
    (mu : u 1 + 2 * u 2 + 3 * u 3 = 1 + d) :
    ∑ i in Finset.range 4, u i * (α + β * (i : ℚ)) = α + β * (1 + d) := by
  simp only [Finset.sum_range_succ, Finset.sum_range_zero]
  push_cast
  linear_combination α * su + β * mu

theorem sum64_affine (u v w : Nat → ℚ) (dx dy dz a b c e X Y Z : ℚ)
    (su : u 0 + u 1 + u 2 + u 3 = 1) (mu : u 1 + 2 * u 2 + 3 * u 3 = 1 + dx)
    (sv : v 0 + v 1 + v 2 + v 3 = 1) (mv : v 1 + 2 * v 2 + 3 * v 3 = 1 + dy)
    (sw : w 0 + w 1 + w 2 + w 3 = 1) (mw : w 1 + 2 * w 2 + 3 * w 3 = 1 + dz) :
    (∑ k in Finset.range 4, ∑ j in Finset.range 4, ∑ i in Finset.range 4,
      w k * v j * u i * (a * (X - 1 + (i : ℚ)) + b * (Y - 1 + (j : ℚ)) + c * (Z - 1 + (k : ℚ)) + e))
      = a * (X + dx) + b * (Y + dy) + c * (Z + dz) + e := by
  have hi : ∀ k j : Nat,
      (∑ i in Finset.range 4,
        w k * v j * u i * (a * (X - 1 + (i : ℚ)) + b * (Y - 1 + (j : ℚ)) + c * (Z - 1 + (k : ℚ)) + e))
      = w k * (v j * ((a * (X + dx) + b * (Y - 1) + c * (Z - 1 + (k : ℚ)) + e) + b * (j : ℚ))) := by
    intro k j
    have h := sum4_affine u dx (a * (X - 1) + b * (Y - 1 + (j : ℚ)) + c * (Z - 1 + (k : ℚ)) + e) a
      su mu
    calc (∑ i in Finset.range 4,
          w k * v j * u i *
            (a * (X - 1 + (i : ℚ)) + b * (Y - 1 + (j : ℚ)) + c * (Z - 1 + (k : ℚ)) + e))
        = w k * v j * ∑ i in Finset.range 4,
            u i * ((a * (X - 1) + b * (Y - 1 + (j : ℚ)) + c * (Z - 1 + (k : ℚ)) + e)
              + a * (i : ℚ)) := by
          rw [Finset.mul_sum]
          exact Finset.sum_congr rfl fun i _ => by ring
      _ = w k * (v j * ((a * (X + dx) + b * (Y - 1) + c * (Z - 1 + (k : ℚ)) + e) + b * (j : ℚ))) := by
          rw [h]; ring
  have hj : ∀ k : Nat,
      (∑ j in Finset.range 4, ∑ i in Finset.range 4,
        w k * v j * u i * (a * (X - 1 + (i : ℚ)) + b * (Y - 1 + (j : ℚ)) + c * (Z - 1 + (k : ℚ)) + e))
      = w k * ((a * (X + dx) + b * (Y + dy) + c * (Z - 1) + e) + c * (k : ℚ)) := by
    intro k
    have h := sum4_affine v dy (a * (X + dx) + b * (Y - 1) + c * (Z - 1 + (k : ℚ)) + e) b sv mv
    calc (∑ j in Finset.range 4, ∑ i in Finset.range 4,
          w k * v j * u i *
            (a * (X - 1 + (i : ℚ)) + b * (Y - 1 + (j : ℚ)) + c * (Z - 1 + (k : ℚ)) + e))
        = w k * ∑ j in Finset.range 4,
            v j * ((a * (X + dx) + b * (Y - 1) + c * (Z - 1 + (k : ℚ)) + e) + b * (j : ℚ)) := by
          rw [Finset.mul_sum]
          exact Finset.sum_congr rfl fun j _ => hi k j
      _ = w k * ((a * (X + dx) + b * (Y + dy) + c * (Z - 1) + e) + c * (k : ℚ)) := by
          rw [h]; ring
  have h := sum4_affine w dz (a * (X + dx) + b * (Y + dy) + c * (Z - 1) + e) c sw mw
  calc (∑ k in Finset.range 4, ∑ j in Finset.range 4, ∑ i in Finset.range 4,
        w k * v j * u i *
          (a * (X - 1 + (i : ℚ)) + b * (Y - 1 + (j : ℚ)) + c * (Z - 1 + (k : ℚ)) + e))
      = ∑ k in Finset.range 4,
          w k * ((a * (X + dx) + b * (Y + dy) + c * (Z - 1) + e) + c * (k : ℚ)) :=
        Finset.sum_congr rfl fun k _ => hj k
    _ = a * (X + dx) + b * (Y + dy) + c * (Z + dz) + e := by
        rw [h]; ring
theorem hasDerivAt_cubic (a b c e x : ℚ) :
    HasDerivAt (fun d : ℚ => a * d ^ 3 + b * d ^ 2 + c * d + e)
      (3 * a * x ^ 2 + 2 * b * x + c) x := by
  have h3 := (hasDerivAt_pow 3 x).const_mul a
  have h2 := (hasDerivAt_pow 2 x).const_mul b
  have h1 := (hasDerivAt_id x).const_mul c
  have h := ((h3.add h2).add h1).add_const e
  convert h using 1
  simp
  ring

theorem cubic1D_eq (s : Int → ℚ) (n : Int) :
    cubic1D s n = fun d : ℚ =>
      (-0.5 * s (n - 1) + 1.5 * s n - 1.5 * s (n + 1) + 0.5 * s (n + 2)) * d ^ 3
      + (s (n - 1) - 2.5 * s n + 2 * s (n + 1) - 0.5 * s (n + 2)) * d ^ 2
      + (-0.5 * s (n - 1) + 0.5 * s (n + 1)) * d + s n := by
  funext d
  simp only [cubic1D, catmullRom]
  ring

/-! ## Lemmas on the rounded functions -/

theorem catmullRomR_id (d : ℚ) (i : Nat) : catmullRomR id d i = catmullRom d i := by
  unfold catmullRomR catmullRom
  rfl

theorem blendR_id (d lo hi : ℚ) : blendR id d lo hi = blend d lo hi := rfl

theorem TrilinearR_id (s : Volume) (px py pz : ℚ) (dims : Dims) :
    TrilinearR id s px py pz dims = Trilinear s px py pz dims := rfl

theorem TricubicR_id (s : Volume) (px py pz : ℚ) (dims : Dims) :
    TricubicR id s px py pz dims = Tricubic s px py pz dims := by
  have hu : ∀ d, catmullRomR id d = catmullRom d := fun d => funext (catmullRomR_id d)
  have hrow : ∀ u, rowBodyR id s u = rowBody s u := fun u => rfl
  have hplane : ∀ u v nx, planeBodyR id s u v nx = planeBody s u v nx := fun u v nx => rfl
  have hstack : ∀ u v w nx nxy, stackBodyR id s u v w nx nxy = stackBody s u v w nx nxy :=
    fun u v w nx nxy => rfl
  simp only [TricubicR, Tricubic, hu, hstack, TrilinearR_id, id]

theorem tripleSumR_id (u v w : Nat → ℚ) (f : Nat → Nat → Nat → ℚ) :
    tripleSumR id u v w f =
      ∑ k in Finset.range 4, ∑ j in Finset.range 4, ∑ i in Finset.range 4,
        w k * v j * u i * f i j k := by
  simp only [tripleSumR, Finset.sum_range_succ, Finset.sum_range_zero, List.range_succ,
    List.range_zero, List.nil_append, List.cons_append, List.foldl_cons, List.foldl_nil, id]
  ring

theorem cornerSumR_id (dx dy dz : ℚ) (f : Nat → Nat → Nat → ℚ) :
    cornerSumR id dx dy dz f =
      ∑ c in Finset.range 2, ∑ b in Finset.range 2, ∑ a in Finset.range 2,
        linWeight dx a * linWeight dy b * linWeight dz c * f a b c := by
  simp only [cornerSumR, linWeight, Finset.sum_range_succ, Finset.sum_range_zero,
    List.range_succ, List.range_zero, List.nil_append, List.cons_append, List.foldl_cons,
    List.foldl_nil, id]
  simp
  ring

theorem exists_of_map_fst {α β : Type} {o : Option (α × β)} {w : α}
    (h : o.map Prod.fst = some w) : ∃ val : β, o = some (w, val) := by
  obtain ⟨⟨w1, v1⟩, e, hw⟩ := Option.map_eq_some'.mp h
  simp only at hw
  exact ⟨v1, by rw [e, hw]⟩

theorem exists_of_map_snd {α β : Type} {o : Option (α × β)} {w : β}
    (h : o.map Prod.snd = some w) : ∃ val : α, o = some (val, w) := by
  obtain ⟨⟨v1, w1⟩, e, hw⟩ := Option.map_eq_some'.mp h
  simp only at hw
  exact ⟨v1, by rw [e, hw]⟩

theorem rowLoopR_reads (r : ℚ → ℚ) (s : Volume) (u : Nat → ℚ) (wk : Walk) (a : ℚ)
    (h0 : 0 ≤ wk.pv) (h1 : wk.pv + 3 < (s.length : Int)) :
    ∃ val : ℚ, forLoop 4 (rowBodyR r s u) (wk, a) =
      some ({ pv := wk.pv + 4, reads := wk.reads ++ rowIdx wk.pv }, val) := by
  apply exists_of_map_fst
  rw [forLoop_four]
  simp only [rowBodyR, load_eq s wk.pv h0 (by omega), load_eq s (wk.pv + 1) (by omega) (by omega),
    load_eq s (wk.pv + 1 + 1) (by omega) (by omega),
    load_eq s (wk.pv + 1 + 1 + 1) (by omega) (by omega), Option.map_some', Option.some_bind]
  simp [add_assoc, rowIdx]

theorem planeBodyR_reads (r : ℚ → ℚ) (s : Volume) (u v : Nat → ℚ) (nx : Int) (j : Nat)
    (wk : Walk) (a : ℚ) (h0 : 0 ≤ wk.pv) (h1 : wk.pv + 3 < (s.length : Int)) :
    ∃ val : ℚ, planeBodyR r s u v nx j (wk, a) =
      some ({ pv := wk.pv + nx, reads := wk.reads ++ rowIdx wk.pv }, val) := by
  obtain ⟨val, hval⟩ := rowLoopR_reads r s u wk 0 h0 h1
  apply exists_of_map_fst
  simp [planeBodyR, hval]

theorem planeLoopR_reads (r : ℚ → ℚ) (s : Volume) (u v : Nat → ℚ) (nx : Int) (wk : Walk)
    (a : ℚ)
    (hb : ∀ j : Int, 0 ≤ j → j ≤ 3 →
      0 ≤ wk.pv + j * nx ∧ wk.pv + j * nx + 3 < (s.length : Int)) :
    ∃ val : ℚ, forLoop 4 (planeBodyR r s u v nx) (wk, a) =
      some ({ pv := wk.pv + 4 * nx, reads := wk.reads ++ planeIdx nx wk.pv }, val) := by
  have b0 := hb 0 (by norm_num) (by norm_num)
  have b1 := hb 1 (by norm_num) (by norm_num)
  have b2 := hb 2 (by norm_num) (by norm_num)
  have b3 := hb 3 (by norm_num) (by norm_num)
  simp only [zero_mul, add_zero, one_mul] at b0 b1
  rw [forLoop_four]
  obtain ⟨v0, e0⟩ := planeBodyR_reads r s u v nx 0 wk a b0.1 b0.2
  rw [e0]
  simp only [Option.some_bind]
  obtain ⟨v1, e1⟩ := planeBodyR_reads r s u v nx 1
    { pv := wk.pv + nx, reads := wk.reads ++ rowIdx wk.pv } v0 b1.1 b1.2
  rw [e1]
  simp only [Option.some_bind]
  obtain ⟨v2, e2⟩ := planeBodyR_reads r s u v nx 2
    { pv := wk.pv + nx + nx, reads := wk.reads ++ rowIdx wk.pv ++ rowIdx (wk.pv + nx) } v1
    (by have := b2.1; simp only []; linarith) (by have := b2.2; simp only []; linarith)
  rw [e2]
  simp only [Option.some_bind]
  obtain ⟨v3, e3⟩ := planeBodyR_reads r s u v nx 3
    { pv := wk.pv + nx + nx + nx,
      reads := wk.reads ++ rowIdx wk.pv ++ rowIdx (wk.pv + nx) ++ rowIdx (wk.pv + nx + nx) } v2
    (by have := b3.1; simp only []; linarith) (by have := b3.2; simp only []; linarith)
  rw [e3]
  have f2 : wk.pv + nx + nx = wk.pv + 2 * nx := by ring
  have f3 : wk.pv + 2 * nx + nx = wk.pv + 3 * nx := by ring
  have f4 : wk.pv + 3 * nx + nx = wk.pv + 4 * nx := by ring
  exact ⟨v3, by simp only [f2, f3, f4, planeIdx, List.append_assoc]⟩

theorem stackBodyR_reads (r : ℚ → ℚ) (s : Volume) (u v w : Nat → ℚ) (nx nxy : Int) (k : Nat)
    (wk : Walk) (a : ℚ)
    (hb : ∀ j : Int, 0 ≤ j → j ≤ 3 →
      0 ≤ wk.pv + j * nx ∧ wk.pv + j * nx + 3 < (s.length : Int)) :
    ∃ val : ℚ, stackBodyR r s u v w nx nxy k (wk, a) =
      some ({ pv := wk.pv + nxy, reads := wk.reads ++ planeIdx nx wk.pv }, val) := by
  obtain ⟨val, hval⟩ := planeLoopR_reads r s u v nx wk 0 hb
  apply exists_of_map_fst
  simp [stackBodyR, hval]

theorem stackLoopR_reads (r : ℚ → ℚ) (s : Volume) (u v w : Nat → ℚ) (nx nxy : Int)
    (wk : Walk) (a : ℚ)
    (hb : ∀ j k : Int, 0 ≤ j → j ≤ 3 → 0 ≤ k → k ≤ 3 →
      0 ≤ wk.pv + k * nxy + j * nx ∧ wk.pv + k * nxy + j * nx + 3 < (s.length : Int)) :
    ∃ val : ℚ, forLoop 4 (stackBodyR r s u v w nx nxy) (wk, a) =
      some ({ pv := wk.pv + 4 * nxy, reads := wk.reads ++ stackIdx nx nxy wk.pv }, val) := by
  have b0 : ∀ j : Int, 0 ≤ j → j ≤ 3 →
      0 ≤ wk.pv + j * nx ∧ wk.pv + j * nx + 3 < (s.length : Int) := fun j h0 h3 => by
    simpa using hb j 0 h0 h3 (by norm_num) (by norm_num)
  have b1 : ∀ j : Int, 0 ≤ j → j ≤ 3 →
      0 ≤ wk.pv + nxy + j * nx ∧ wk.pv + nxy + j * nx + 3 < (s.length : Int) := fun j h0 h3 => by
    simpa using hb j 1 h0 h3 (by norm_num) (by norm_num)
  have b2 : ∀ j : Int, 0 ≤ j → j ≤ 3 →
      0 ≤ wk.pv + nxy + nxy + j * nx ∧ wk.pv + nxy + nxy + j * nx + 3 < (s.length : Int) :=
    fun j h0 h3 => by
      have := hb j 2 h0 h3 (by norm_num) (by norm_num)
      constructor <;> linarith [this.1, this.2]
  have b3 : ∀ j : Int, 0 ≤ j → j ≤ 3 →
      0 ≤ wk.pv + nxy + nxy + nxy + j * nx ∧
        wk.pv + nxy + nxy + nxy + j * nx + 3 < (s.length : Int) :=
    fun j h0 h3 => by
      have := hb j 3 h0 h3 (by norm_num) (by norm_num)
      constructor <;> linarith [this.1, this.2]
  rw [forLoop_four]
  obtain ⟨v0, e0⟩ := stackBodyR_reads r s u v w nx nxy 0 wk a b0
  rw [e0]
  simp only [Option.some_bind]
  obtain ⟨v1, e1⟩ := stackBodyR_reads r s u v w nx nxy 1
    { pv := wk.pv + nxy, reads := wk.reads ++ planeIdx nx wk.pv } v0 b1
  rw [e1]
  simp only [Option.some_bind]
  obtain ⟨v2, e2⟩ := stackBodyR_reads r s u v w nx nxy 2
    { pv := wk.pv + nxy + nxy,
      reads := wk.reads ++ planeIdx nx wk.pv ++ planeIdx nx (wk.pv + nxy) } v1 b2
  rw [e2]
  simp only [Option.some_bind]
  obtain ⟨v3, e3⟩ := stackBodyR_reads r s u v w nx nxy 3
    { pv := wk.pv + nxy + nxy + nxy,
      reads := wk.reads ++ planeIdx nx wk.pv ++ planeIdx nx (wk.pv + nxy)
        ++ planeIdx nx (wk.pv + nxy + nxy) } v2 b3
  rw [e3]
  have f2 : wk.pv + nxy + nxy = wk.pv + 2 * nxy := by ring
  have f3 : wk.pv + 2 * nxy + nxy = wk.pv + 3 * nxy := by ring
  have f4 : wk.pv + 3 * nxy + nxy = wk.pv + 4 * nxy := by ring
  exact ⟨v3, by simp only [f2, f3, f4, stackIdx, List.append_assoc]⟩

theorem TrilinearR_rejected (r : ℚ → ℚ) (s : Volume) (px py pz : ℚ) (dims : Dims)
    (h : linearRejects dims (toInt px) (toInt py) (toInt pz)) :
    TrilinearR r s px py pz dims = some (0, []) := by
  unfold linearRejects at h
  simp only [TrilinearR]
  rw [if_pos h]

theorem TricubicR_rejected (r : ℚ → ℚ) (s : Volume) (px py pz : ℚ) (dims : Dims)
    (h : cubicRejects dims (toInt px) (toInt py) (toInt pz)) :
    TricubicR r s px py pz dims = TrilinearR r s px py pz dims := by
  unfold cubicRejects at h
  simp only [TricubicR]
  rw [if_pos h]

/-- Whatever is applied after the arithmetic operations, an accepted point makes `Tricubic`
read the same 64 offsets. -/
theorem TricubicR_interior_reads (r : ℚ → ℚ) (s : Volume) (px py pz : ℚ) (dims : Dims)
    (hlen : (s.length : Int) = dims.xDim * dims.yDim * dims.zDim)
    (h : ¬ cubicRejects dims (toInt px) (toInt py) (toInt pz)) :
    ∃ val : ℚ, TricubicR r s px py pz dims =
      some (val, stackIdx dims.xDim (dims.xDim * dims.yDim)
        (corner dims (toInt px) (toInt py) (toInt pz))) := by
  unfold cubicRejects at h
  simp only [TricubicR]
  rw [if_neg h]
  push_neg at h
  obtain ⟨hx0, hx1, hy0, hy1, hz0, hz1⟩ := h
  obtain ⟨val, e⟩ := stackLoopR_reads r s
    (catmullRomR r (r (px - (toInt px : ℚ)))) (catmullRomR r (r (py - (toInt py : ℚ))))
    (catmullRomR r (r (pz - (toInt pz : ℚ)))) dims.xDim (dims.xDim * dims.yDim)
    { pv := toInt px - 1 + (toInt py - 1) * dims.xDim + (toInt pz - 1) * (dims.xDim * dims.yDim),
      reads := [] } 0
    (by
      intro j k hj0 hj3 hk0 hk3
      simp only []
      rw [hlen]
      have lo := (LOC3D_bounds dims.xDim dims.yDim dims.zDim
        (toInt px - 1) (toInt py - 1 + j) (toInt pz - 1 + k)
        (by omega) (by omega) (by omega) (by omega) (by omega) (by omega)).1
      have hi := (LOC3D_bounds dims.xDim dims.yDim dims.zDim
        (toInt px + 2) (toInt py - 1 + j) (toInt pz - 1 + k)
        (by omega) (by omega) (by omega) (by omega) (by omega) (by omega)).2
      constructor <;> linarith)
  rw [e]
  exact ⟨val, by simp [corner]⟩

/-- Whatever is applied after the arithmetic operations, an accepted point makes `Trilinear`
read the same 8 offsets. -/
theorem TrilinearR_interior_reads (r : ℚ → ℚ) (s : Volume) (px py pz : ℚ) (dims : Dims)
    (hlen : (s.length : Int) = dims.xDim * dims.yDim * dims.zDim)
    (h : ¬ linearRejects dims (toInt px) (toInt py) (toInt pz)) :
    ∃ val : ℚ, TrilinearR r s px py pz dims =
      some (val, linearIdx dims.xDim (dims.xDim * dims.yDim)
        (corner dims (toInt px) (toInt py) (toInt pz))) := by
  unfold linearRejects at h
  simp only [TrilinearR]
  rw [if_neg h]
  push_neg at h
  obtain ⟨hx0, hx1, hy0, hy1, hz0, hz1⟩ := h
  have bd : ∀ a b c : Int, 0 ≤ a → a ≤ 1 → 0 ≤ b → b ≤ 1 → 0 ≤ c → c ≤ 1 →
      0 ≤ (toInt px - 1 + a) + (toInt py - 1 + b) * dims.xDim
            + (toInt pz - 1 + c) * (dims.xDim * dims.yDim) ∧
        (toInt px - 1 + a) + (toInt py - 1 + b) * dims.xDim
            + (toInt pz - 1 + c) * (dims.xDim * dims.yDim) < (s.length : Int) := by
    intro a b c ha0 ha1 hb0 hb1 hc0 hc1
    rw [hlen]
    exact LOC3D_bounds _ _ _ _ _ _ (by omega) (by omega) (by omega) (by omega) (by omega)
      (by omega)
  have b000 := bd 0 0 0 (by norm_num) (by norm_num) (by norm_num) (by norm_num) (by norm_num) (by norm_num)
  have b001 := bd 1 0 0 (by norm_num) (by norm_num) (by norm_num) (by norm_num) (by norm_num) (by norm_num)
  have b010 := bd 0 1 0 (by norm_num) (by norm_num) (by norm_num) (by norm_num) (by norm_num) (by norm_num)
  have b011 := bd 1 1 0 (by norm_num) (by norm_num) (by norm_num) (by norm_num) (by norm_num) (by norm_num)
  have b100 := bd 0 0 1 (by norm_num) (by norm_num) (by norm_num) (by norm_num) (by norm_num) (by norm_num)
  have b101 := bd 1 0 1 (by norm_num) (by norm_num) (by norm_num) (by norm_num) (by norm_num) (by norm_num)
  have b110 := bd 0 1 1 (by norm_num) (by norm_num) (by norm_num) (by norm_num) (by norm_num) (by norm_num)
  have b111 := bd 1 1 1 (by norm_num) (by norm_num) (by norm_num) (by norm_num) (by norm_num) (by norm_num)
  rw [load_eq s _ (by linarith [b000.1]) (by linarith [b000.2]),
    load_eq s _ (by linarith [b001.1]) (by linarith [b001.2]),
    load_eq s _ (by linarith [b010.1]) (by linarith [b010.2]),
    load_eq s _ (by linarith [b011.1]) (by linarith [b011.2]),
    load_eq s _ (by linarith [b100.1]) (by linarith [b100.2]),
    load_eq s _ (by linarith [b101.1]) (by linarith [b101.2]),
    load_eq s _ (by linarith [b110.1]) (by linarith [b110.2]),
    load_eq s _ (by linarith [b111.1]) (by linarith [b111.2])]
  apply exists_of_map_snd
  simp [linearIdx, corner]

theorem linearIdx_cases (dims : Dims) (x y z i : Int)
    (hi : i ∈ linearIdx dims.xDim (dims.xDim * dims.yDim) (corner dims x y z)) :
    ∃ a b c : Nat, a < 2 ∧ b < 2 ∧ c < 2 ∧
      i = LOC3D dims.xDim dims.yDim (x - 1 + (a : Int)) (y - 1 + (b : Int)) (z - 1 + (c : Int)) := by
  simp only [linearIdx, List.mem_cons, List.mem_singleton, List.not_mem_nil, or_false] at hi
  rcases hi with h | h | h | h | h | h | h | h
  · exact ⟨0, 0, 0, by decide, by decide, by decide, by rw [h]; simp only [corner, LOC3D]; push_cast; ring⟩
  · exact ⟨1, 0, 0, by decide, by decide, by decide, by rw [h]; simp only [corner, LOC3D]; push_cast; ring⟩
  · exact ⟨0, 1, 0, by decide, by decide, by decide, by rw [h]; simp only [corner, LOC3D]; push_cast; ring⟩
  · exact ⟨1, 1, 0, by decide, by decide, by decide, by rw [h]; simp only [corner, LOC3D]; push_cast; ring⟩
  · exact ⟨0, 0, 1, by decide, by decide, by decide, by rw [h]; simp only [corner, LOC3D]; push_cast; ring⟩
  · exact ⟨1, 0, 1, by decide, by decide, by decide, by rw [h]; simp only [corner, LOC3D]; push_cast; ring⟩
  · exact ⟨0, 1, 1, by decide, by decide, by decide, by rw [h]; simp only [corner, LOC3D]; push_cast; ring⟩
  · exact ⟨1, 1, 1, by decide, by decide, by decide, by rw [h]; simp only [corner, LOC3D]; push_cast; ring⟩

/-- The rounding `rnd` on known values: the doubles nearest to 0.1, 1/3 and -0.1, a value
that is a double already, the two ties above `2^53` (to the even neighbour), and the ties
at the bottom of the subnormal range. -/
theorem rnd_examples :
    rnd 0.1 = 3602879701896397 / 36028797018963968 ∧
    rnd (1 / 3) = 6004799503160661 / 18014398509481984 ∧
    rnd (-0.1) = -(3602879701896397 / 36028797018963968) ∧
    rnd 0.5625 = 0.5625 ∧ rnd 255 = 255 ∧ rnd 0 = 0 ∧
    rnd (2 ^ 53 + 1) = 2 ^ 53 ∧ rnd (2 ^ 53 + 3) = 2 ^ 53 + 4 ∧
    rnd (pow2 (-1074) / 2) = 0 ∧ rnd (3 * pow2 (-1074) / 2) = 2 * pow2 (-1074) := by
  decide!

/-! ## The claims -/

/-- C1: on a volume of exactly `nx*ny*nz` samples, `Tricubic` and `Trilinear` return a value
at every query point (no read takes its error branch), and every offset they read lies in
`0 <= i < nx*ny*nz`; the cubic walk makes its 64 reads and the linear path its 8 reads
whenever the respective threshold is passed.  The bounds `nx, ny, nz >= 1` of the data model
are not needed: a dimension below 1 makes both thresholds fail. -/
theorem C1_reads_stay_in_buffer (s : Volume) (dims : Dims) (px py pz : ℚ)
    (hlen : (s.length : Int) = dims.xDim * dims.yDim * dims.zDim) :
    (∃ v log, Tricubic s px py pz dims = some (v, log) ∧
        (∀ i ∈ log, 0 ≤ i ∧ i < dims.xDim * dims.yDim * dims.zDim) ∧
        (¬ cubicRejects dims (toInt px) (toInt py) (toInt pz) → log.length = 64)) ∧
    (∃ v log, Trilinear s px py pz dims = some (v, log) ∧
        (∀ i ∈ log, 0 ≤ i ∧ i < dims.xDim * dims.yDim * dims.zDim) ∧
        (¬ linearRejects dims (toInt px) (toInt py) (toInt pz) → log.length = 8)) := by
  have lin : ∃ v log, Trilinear s px py pz dims = some (v, log) ∧
      (∀ i ∈ log, 0 ≤ i ∧ i < dims.xDim * dims.yDim * dims.zDim) ∧
      (¬ linearRejects dims (toInt px) (toInt py) (toInt pz) → log.length = 8) := by
    by_cases hr : linearRejects dims (toInt px) (toInt py) (toInt pz)
    · exact ⟨0, [], Trilinear_rejected s px py pz dims hr, by simp, fun h => absurd hr h⟩
    · have e := Trilinear_interior s px py pz dims hlen hr
      refine ⟨_, _, e, ?_, fun _ => linearIdx_length _ _ _⟩
      rw [← hlen]
      exact Trilinear_reads_loaded s px py pz dims _ _ e
  refine ⟨?_, lin⟩
  by_cases hc : cubicRejects dims (toInt px) (toInt py) (toInt pz)
  · obtain ⟨v, log, e, hb, _⟩ := lin
    exact ⟨v, log, (Tricubic_rejected s px py pz dims hc).trans e, hb, fun h => absurd hc h⟩
  · have e := Tricubic_interior s px py pz dims hlen hc
    refine ⟨_, _, e, ?_, fun _ => stackIdx_length _ _ _⟩
    rw [← hlen]
    exact Tricubic_reads_loaded s px py pz dims _ _ e

/-- Witness of C1: the 6x6x6 ramp volume queried at (2.5, 2.5, 2.5). -/
theorem C1_reads_stay_in_buffer_witness :
    (∃ v log, Tricubic ramp6 2.5 2.5 2.5 ⟨6, 6, 6⟩ = some (v, log) ∧
        (∀ i ∈ log, 0 ≤ i ∧ i < (6 : Int) * 6 * 6) ∧
        (¬ cubicRejects ⟨6, 6, 6⟩ (toInt 2.5) (toInt 2.5) (toInt 2.5) → log.length = 64)) ∧
    (∃ v log, Trilinear ramp6 2.5 2.5 2.5 ⟨6, 6, 6⟩ = some (v, log) ∧
        (∀ i ∈ log, 0 ≤ i ∧ i < (6 : Int) * 6 * 6) ∧
        (¬ linearRejects ⟨6, 6, 6⟩ (toInt 2.5) (toInt 2.5) (toInt 2.5) → log.length = 8)) :=
  C1_reads_stay_in_buffer ramp6 ⟨6, 6, 6⟩ 2.5 2.5 2.5 (by simp [ramp6])

/-- C2: when the integer part of the query point fails the cubic threshold on at least one
axis (integer part `<= 1` or `>= extent-3`), `Tricubic` returns exactly what `Trilinear`
returns for the same arguments. -/
theorem C2_cubic_delegates (s : Volume) (dims : Dims) (px py pz : ℚ)
    (h : toInt px ≤ 1 ∨ toInt px ≥ dims.xDim - 3 ∨ toInt py ≤ 1 ∨ toInt py ≥ dims.yDim - 3 ∨
      toInt pz ≤ 1 ∨ toInt pz ≥ dims.zDim - 3) :
    Tricubic s px py pz dims = Trilinear s px py pz dims :=
  Tricubic_rejected s px py pz dims h

/-- Witness of C2: a (5,5,5) volume queried at (0.5, 0.5, 0.5). -/
theorem C2_cubic_delegates_witness :
    Tricubic ramp5 0.5 0.5 0.5 ⟨5, 5, 5⟩ = Trilinear ramp5 0.5 0.5 0.5 ⟨5, 5, 5⟩ :=
  C2_cubic_delegates ramp5 ⟨5, 5, 5⟩ 0.5 0.5 0.5 (Or.inl (by rw [toInt_half]; decide))

/-- C3: when the integer part of the query point fails the linear threshold on at least one
axis (integer part `<= 1` or `>= extent-1`), `Trilinear` returns exactly `0.0`, and reads
nothing. -/
theorem C3_linear_degenerate (s : Volume) (dims : Dims) (px py pz : ℚ)
    (h : toInt px ≤ 1 ∨ toInt px ≥ dims.xDim - 1 ∨ toInt py ≤ 1 ∨ toInt py ≥ dims.yDim - 1 ∨
      toInt pz ≤ 1 ∨ toInt pz ≥ dims.zDim - 1) :
    Trilinear s px py pz dims = some (0, []) :=
  Trilinear_rejected s px py pz dims h

/-- Witness of C3: a (5,5,5) volume queried at (0.2, 0.2, 0.2). -/
theorem C3_linear_degenerate_witness :
    Trilinear ramp5 0.2 0.2 0.2 ⟨5, 5, 5⟩ = some (0, []) :=
  C3_linear_degenerate ramp5 ⟨5, 5, 5⟩ 0.2 0.2 0.2 (Or.inl (by rw [toInt_fifth]; decide))

/-- C4: for every fractional offset `d` the four cubic weights of `Tricubic` sum to 1, and
the two weights `d` and `1-d` of the blend of `Trilinear` sum to 1. -/
theorem C4_partition_of_unity (d : ℚ) :
    catmullRom d 0 + catmullRom d 1 + catmullRom d 2 + catmullRom d 3 = 1 ∧
    catmullRom d 0 = -0.5 * d ^ 3 + d ^ 2 - 0.5 * d ∧
    catmullRom d 1 = 1.5 * d ^ 3 - 2.5 * d ^ 2 + 1 ∧
    catmullRom d 2 = -1.5 * d ^ 3 + 2.0 * d ^ 2 + 0.5 * d ∧
    catmullRom d 3 = 0.5 * d ^ 3 - 0.5 * d ^ 2 ∧
    (∀ lo hi : ℚ, blend d lo hi = d * hi + (1 - d) * lo) ∧
    d + (1 - d) = 1 := by
  refine ⟨catmullRom_sum d, ?_, ?_, ?_, ?_, fun lo hi => rfl, by ring⟩ <;>
    simp only [catmullRom] <;> ring

/-- C5: at a query point with integer coordinates `(x, y, z)` that passes the cubic threshold
on all three axes (`2 <= coordinate <= extent-4`), `Tricubic` returns exactly the stored
sample at `(x, y, z)`, the byte at offset `x + nx*(y + ny*z)`. -/
theorem C5_cubic_identity_at_grid (s : Volume) (dims : Dims) (x y z : Int)
    (hlen : (s.length : Int) = dims.xDim * dims.yDim * dims.zDim)
    (hx : 2 ≤ x ∧ x ≤ dims.xDim - 4) (hy : 2 ≤ y ∧ y ≤ dims.yDim - 4)
    (hz : 2 ≤ z ∧ z ≤ dims.zDim - 4) :
    ∃ (b : uint8) (log : List Int),
      0 ≤ LOC3D dims.xDim dims.yDim x y z ∧
      s.get? (LOC3D dims.xDim dims.yDim x y z).toNat = some b ∧
      Tricubic s (x : ℚ) (y : ℚ) (z : ℚ) dims = some ((b.val : ℚ), log) := by
  have hrej : ¬ cubicRejects dims x y z := by unfold cubicRejects; omega
  have hb := LOC3D_bounds dims.xDim dims.yDim dims.zDim x y z (by omega) (by omega) (by omega) (by omega) (by omega) (by omega)
  have hloc : LOC3D dims.xDim dims.yDim x y z = x + y * dims.xDim + z * (dims.xDim * dims.yDim) := by
    unfold LOC3D; ring
  rw [← hloc, ← hlen] at hb
  obtain ⟨b, hget, hval⟩ := sampleD_eq_get s _ hb.1 hb.2
  exact ⟨b, _, hb.1, hget, by rw [Tricubic_at_grid s dims x y z hlen hrej, hval]⟩

/-- Witness of C5: the 6x6x6 ramp volume at (2, 2, 2). -/
theorem C5_cubic_identity_at_grid_witness :
    ∃ (b : uint8) (log : List Int),
      0 ≤ LOC3D 6 6 2 2 2 ∧
      ramp6.get? (LOC3D 6 6 2 2 2).toNat = some b ∧
      Tricubic ramp6 ((2 : Int) : ℚ) ((2 : Int) : ℚ) ((2 : Int) : ℚ) ⟨6, 6, 6⟩
        = some ((b.val : ℚ), log) :=
  C5_cubic_identity_at_grid ramp6 ⟨6, 6, 6⟩ 2 2 2 (by simp [ramp6]) (by decide) (by decide)
    (by decide)

/-- C6 (evaluation of the code at the failing input): on the 4x4x4 ramp volume, whose sample
at offset `i` is `i`, `Trilinear` at the grid point (2, 2, 2), which passes the linear
threshold, returns 21, the sample stored at (1, 1, 1), while the sample stored at (2, 2, 2),
offset 42, is 42. -/
theorem C6_linear_grid_point_shifted :
    Trilinear ramp4 2 2 2 ⟨4, 4, 4⟩ = some (21, [21, 22, 25, 26, 37, 38, 41, 42]) ∧
    LOC3D 4 4 2 2 2 = 42 ∧ ramp4.get? 42 = some 42 ∧
    ¬ linearRejects ⟨4, 4, 4⟩ (toInt 2) (toInt 2) (toInt 2) := by
  have e : toInt (2 : ℚ) = 2 := toInt_intCast 2
  refine ⟨?_, by decide, by decide, by rw [e]; decide⟩
  have h := Trilinear_at_grid ramp4 ⟨4, 4, 4⟩ 2 2 2 (by simp [ramp4]) (by decide)
  have hs : sampleD ramp4 21 = 21 := by decide
  simpa [LOC3D, linearIdx, corner, hs] using h

/-- C7 (evaluation of the code at the failing input): on the 6x6x6 ramp volume, at the grid
point (2, 2, 2), which passes the cubic threshold, `Tricubic` returns 86, the sample at
(2, 2, 2), and `Trilinear` returns 43, the sample at (1, 1, 1). -/
theorem C7_kernels_disagree_at_grid :
    (Tricubic ramp6 2 2 2 ⟨6, 6, 6⟩).map Prod.fst = some 86 ∧
    (Trilinear ramp6 2 2 2 ⟨6, 6, 6⟩).map Prod.fst = some 43 ∧
    ¬ cubicRejects ⟨6, 6, 6⟩ (toInt 2) (toInt 2) (toInt 2) := by
  have e : toInt (2 : ℚ) = 2 := toInt_intCast 2
  refine ⟨?_, ?_, by rw [e]; decide⟩
  · have h := Tricubic_at_grid ramp6 ⟨6, 6, 6⟩ 2 2 2 (by simp [ramp6]) (by decide)
    have hs : sampleD ramp6 86 = 86 := by decide
    simp only [Int.cast_ofNat] at h
    rw [h]
    simpa [LOC3D] using hs
  · have h := Trilinear_at_grid ramp6 ⟨6, 6, 6⟩ 2 2 2 (by simp [ramp6]) (by decide)
    have hs : sampleD ramp6 43 = 43 := by decide
    simp only [Int.cast_ofNat] at h
    rw [h]
    simpa [LOC3D] using hs

/-- C8: at a query point whose integer parts `(x, y, z)` pass the linear threshold on all
three axes, `Trilinear` reads exactly the 8 corner samples `sample(x-1+a, y-1+b, z-1+c)`,
`a, b, c` in `{0, 1}`, and, in exact arithmetic, the value it returns is at least every
lower bound and at most every upper bound of these 8 samples (so it lies between their
minimum and their maximum), and it lies in `[0, 255]`. -/
theorem C8_linear_convex (s : Volume) (dims : Dims) (px py pz : ℚ)
    (hlen : (s.length : Int) = dims.xDim * dims.yDim * dims.zDim)
    (hx : 1 < toInt px ∧ toInt px < dims.xDim - 1)
    (hy : 1 < toInt py ∧ toInt py < dims.yDim - 1)
    (hz : 1 < toInt pz ∧ toInt pz < dims.zDim - 1) :
    ∃ (v : ℚ) (log : List Int),
      Trilinear s px py pz dims = some (v, log) ∧ log.length = 8 ∧
      log = linearIdx dims.xDim (dims.xDim * dims.yDim)
        (corner dims (toInt px) (toInt py) (toInt pz)) ∧
      (∀ i ∈ log, ∃ a b c : Nat, a < 2 ∧ b < 2 ∧ c < 2 ∧
        i = LOC3D dims.xDim dims.yDim (toInt px - 1 + (a : Int)) (toInt py - 1 + (b : Int))
          (toInt pz - 1 + (c : Int))) ∧
      (∀ a b c : Nat, a < 2 → b < 2 → c < 2 →
        LOC3D dims.xDim dims.yDim (toInt px - 1 + (a : Int)) (toInt py - 1 + (b : Int))
            (toInt pz - 1 + (c : Int)) ∈ log ∧
        load s (LOC3D dims.xDim dims.yDim (toInt px - 1 + (a : Int)) (toInt py - 1 + (b : Int))
            (toInt pz - 1 + (c : Int)))
          = some (voxel s dims (toInt px - 1 + (a : Int)) (toInt py - 1 + (b : Int))
            (toInt pz - 1 + (c : Int)))) ∧
      (∀ m : ℚ, (∀ a b c : Nat, a < 2 → b < 2 → c < 2 →
        m ≤ voxel s dims (toInt px - 1 + (a : Int)) (toInt py - 1 + (b : Int))
          (toInt pz - 1 + (c : Int))) → m ≤ v) ∧
      (∀ M : ℚ, (∀ a b c : Nat, a < 2 → b < 2 → c < 2 →
        voxel s dims (toInt px - 1 + (a : Int)) (toInt py - 1 + (b : Int))
          (toInt pz - 1 + (c : Int)) ≤ M) → v ≤ M) ∧
      (∀ m : ℚ, (∀ i ∈ log, ∀ c, load s i = some c → m ≤ c) → m ≤ v) ∧
      (∀ M : ℚ, (∀ i ∈ log, ∀ c, load s i = some c → c ≤ M) → v ≤ M) ∧
      0 ≤ v ∧ v ≤ 255 := by
  have hrej : ¬ linearRejects dims (toInt px) (toInt py) (toInt pz) := by
    unfold linearRejects; omega
  have e := Trilinear_interior s px py pz dims hlen hrej
  have hin := Trilinear_reads_loaded s px py pz dims _ _ e
  have fx := toInt_frac px (by omega)
  have fy := toInt_frac py (by omega)
  have fz := toInt_frac pz (by omega)
  have gx : 0 ≤ px - (toInt px : ℚ) ∧ px - (toInt px : ℚ) ≤ 1 := ⟨fx.1, le_of_lt fx.2⟩
  have gy : 0 ≤ py - (toInt py : ℚ) ∧ py - (toInt py : ℚ) ≤ 1 := ⟨fy.1, le_of_lt fy.2⟩
  have gz : 0 ≤ pz - (toInt pz : ℚ) ∧ pz - (toInt pz : ℚ) ≤ 1 := ⟨fz.1, le_of_lt fz.2⟩
  refine ⟨_, _, e, linearIdx_length _ _ _, rfl,
    fun i hi => linearIdx_cases dims _ _ _ i hi, ?_, ?_, ?_, ?_, ?_, ?_, ?_⟩
  · intro a b c ha hb hc
    have hm := mem_linearIdx dims (toInt px) (toInt py) (toInt pz) a b c ha hb hc
    exact ⟨hm, load_eq s _ (hin _ hm).1 (hin _ hm).2⟩
  · intro m hm
    refine linearVal_ge s _ _ _ _ _ _ m gx gy gz (fun i hi => ?_)
    obtain ⟨a, b, c, ha, hb, hc, rfl⟩ := linearIdx_cases dims _ _ _ i hi
    exact hm a b c ha hb hc
  · intro M hM
    refine linearVal_le s _ _ _ _ _ _ M gx gy gz (fun i hi => ?_)
    obtain ⟨a, b, c, ha, hb, hc, rfl⟩ := linearIdx_cases dims _ _ _ i hi
    exact hM a b c ha hb hc
  · intro m hm
    exact linearVal_ge s _ _ _ _ _ _ m gx gy gz
      (fun i hi => hm i hi _ (load_eq s i (hin i hi).1 (hin i hi).2))
  · intro M hM
    exact linearVal_le s _ _ _ _ _ _ M gx gy gz
      (fun i hi => hM i hi _ (load_eq s i (hin i hi).1 (hin i hi).2))
  · exact linearVal_ge s _ _ _ _ _ _ 0 gx gy gz (fun i _ => (sampleD_range s i).1)
  · exact linearVal_le s _ _ _ _ _ _ 255 gx gy gz (fun i _ => (sampleD_range s i).2)

/-- Witness of C8: the 6x6x6 ramp volume queried at (2.5, 2.5, 2.5). -/
theorem C8_linear_convex_witness :
    ∃ (v : ℚ) (log : List Int),
      Trilinear ramp6 2.5 2.5 2.5 ⟨6, 6, 6⟩ = some (v, log) ∧ log.length = 8 ∧
      log = linearIdx 6 (6 * 6) (corner ⟨6, 6, 6⟩ (toInt 2.5) (toInt 2.5) (toInt 2.5)) ∧
      (∀ i ∈ log, ∃ a b c : Nat, a < 2 ∧ b < 2 ∧ c < 2 ∧
        i = LOC3D 6 6 (toInt 2.5 - 1 + (a : Int)) (toInt 2.5 - 1 + (b : Int))
          (toInt 2.5 - 1 + (c : Int))) ∧
      (∀ a b c : Nat, a < 2 → b < 2 → c < 2 →
        LOC3D 6 6 (toInt 2.5 - 1 + (a : Int)) (toInt 2.5 - 1 + (b : Int))
            (toInt 2.5 - 1 + (c : Int)) ∈ log ∧
        load ramp6 (LOC3D 6 6 (toInt 2.5 - 1 + (a : Int)) (toInt 2.5 - 1 + (b : Int))
            (toInt 2.5 - 1 + (c : Int)))
          = some (voxel ramp6 ⟨6, 6, 6⟩ (toInt 2.5 - 1 + (a : Int)) (toInt 2.5 - 1 + (b : Int))
            (toInt 2.5 - 1 + (c : Int)))) ∧
      (∀ m : ℚ, (∀ a b c : Nat, a < 2 → b < 2 → c < 2 →
        m ≤ voxel ramp6 ⟨6, 6, 6⟩ (toInt 2.5 - 1 + (a : Int)) (toInt 2.5 - 1 + (b : Int))
          (toInt 2.5 - 1 + (c : Int))) → m ≤ v) ∧
      (∀ M : ℚ, (∀ a b c : Nat, a < 2 → b < 2 → c < 2 →
        voxel ramp6 ⟨6, 6, 6⟩ (toInt 2.5 - 1 + (a : Int)) (toInt 2.5 - 1 + (b : Int))
          (toInt 2.5 - 1 + (c : Int)) ≤ M) → v ≤ M) ∧
      (∀ m : ℚ, (∀ i ∈ log, ∀ c, load ramp6 i = some c → m ≤ c) → m ≤ v) ∧
      (∀ M : ℚ, (∀ i ∈ log, ∀ c, load ramp6 i = some c → c ≤ M) → v ≤ M) ∧
      0 ≤ v ∧ v ≤ 255 :=
  C8_linear_convex ramp6 ⟨6, 6, 6⟩ 2.5 2.5 2.5 (by simp [ramp6])
    (by rw [toInt_two_half]; decide) (by rw [toInt_two_half]; decide)
    (by rw [toInt_two_half]; decide)

/-- C9 (amended): in exact arithmetic, on a volume whose samples all equal one constant `c`,
at every query point that passes the cubic threshold on all three axes, `Tricubic` returns
exactly `c`. -/
theorem C9_cubic_constant (s : Volume) (dims : Dims) (px py pz : ℚ) (c : uint8)
    (hlen : (s.length : Int) = dims.xDim * dims.yDim * dims.zDim)
    (hc : ∀ b ∈ s, b = c)
    (hx : 1 < toInt px ∧ toInt px < dims.xDim - 3)
    (hy : 1 < toInt py ∧ toInt py < dims.yDim - 3)
    (hz : 1 < toInt pz ∧ toInt pz < dims.zDim - 3) :
    ∃ log : List Int, Tricubic s px py pz dims = some ((c.val : ℚ), log) := by
  have hrej : ¬ cubicRejects dims (toInt px) (toInt py) (toInt pz) := by
    unfold cubicRejects; omega
  have e := Tricubic_interior s px py pz dims hlen hrej
  have hin := Tricubic_reads_loaded s px py pz dims _ _ e
  refine ⟨stackIdx dims.xDim (dims.xDim * dims.yDim)
    (corner dims (toInt px) (toInt py) (toInt pz)), ?_⟩
  rw [e, stackVal_const s _ _ _ _ _ _ (c.val : ℚ)
    (fun i hi => sampleD_const s c hc i (hin i hi).1 (hin i hi).2),
    catmullRom_sum, catmullRom_sum, catmullRom_sum]
  simp

/-- Witness of C9: the (10,10,10) volume of constant 128 queried at (5.0,5.0,5.0),
(5.5,5.5,5.5) and (2.0,2.0,2.0) returns exactly 128 each time. -/
theorem C9_cubic_constant_witness :
    (∃ log, Tricubic const10 5.0 5.0 5.0 ⟨10, 10, 10⟩ = some (128, log)) ∧
    (∃ log, Tricubic const10 5.5 5.5 5.5 ⟨10, 10, 10⟩ = some (128, log)) ∧
    (∃ log, Tricubic const10 2.0 2.0 2.0 ⟨10, 10, 10⟩ = some (128, log)) := by
  have hlen : (const10.length : Int) = (10 : Int) * 10 * 10 := by
    rw [const10, List.length_replicate]; norm_num
  have hc : ∀ b ∈ const10, b = (128 : uint8) := fun b hb => (List.mem_replicate.mp hb).2
  have t5 : toInt (5.0 : ℚ) = 5 := toInt_eq_of_bounds 5 (by norm_num) (by norm_num) (by norm_num)
  have t55 : toInt (5.5 : ℚ) = 5 := toInt_eq_of_bounds 5 (by norm_num) (by norm_num) (by norm_num)
  have t2 : toInt (2.0 : ℚ) = 2 := toInt_eq_of_bounds 2 (by norm_num) (by norm_num) (by norm_num)
  exact ⟨C9_cubic_constant const10 ⟨10, 10, 10⟩ 5.0 5.0 5.0 128 hlen hc
      (by rw [t5]; decide) (by rw [t5]; decide) (by rw [t5]; decide),
    C9_cubic_constant const10 ⟨10, 10, 10⟩ 5.5 5.5 5.5 128 hlen hc
      (by rw [t55]; decide) (by rw [t55]; decide) (by rw [t55]; decide),
    C9_cubic_constant const10 ⟨10, 10, 10⟩ 2.0 2.0 2.0 128 hlen hc
      (by rw [t2]; decide) (by rw [t2]; decide) (by rw [t2]; decide)⟩

/-- C9 (counterexample): in double arithmetic the claim fails.  On the (10,10,10) volume of
constant 128, at the query point (5.3, 2.7, 4.9), which passes the cubic threshold,
`Tricubic` returns 9007199254740987 / 2^46 = 127.99999999999993, not 128.  At the three
query points (5.0,5.0,5.0), (5.5,5.5,5.5) and (2.0,2.0,2.0), whose fractional offsets are 0
or 0.5, the double result is exactly 128. -/
theorem C9_constant_inexact_in_double :
    (const10.length : Int) = (10 : Int) * 10 * 10 ∧ (∀ b ∈ const10, b = (128 : uint8)) ∧
    (1 < toInt (rnd 5.3) ∧ toInt (rnd 5.3) < 10 - 3) ∧
    (1 < toInt (rnd 2.7) ∧ toInt (rnd 2.7) < 10 - 3) ∧
    (1 < toInt (rnd 4.9) ∧ toInt (rnd 4.9) < 10 - 3) ∧
    (TricubicFl const10 (rnd 5.3) (rnd 2.7) (rnd 4.9) ⟨10, 10, 10⟩).map Prod.fst
      = some (9007199254740987 / 70368744177664) ∧
    (127.99999999999992 : ℚ) < 9007199254740987 / 70368744177664 ∧
    (9007199254740987 / 70368744177664 : ℚ) < 127.99999999999994 ∧
    (TricubicFl const10 5.0 5.0 5.0 ⟨10, 10, 10⟩).map Prod.fst = some 128 ∧
    (TricubicFl const10 5.5 5.5 5.5 ⟨10, 10, 10⟩).map Prod.fst = some 128 ∧
    (TricubicFl const10 2.0 2.0 2.0 ⟨10, 10, 10⟩).map Prod.fst = some 128 ∧
    ¬ ∀ (s : Volume) (dims : Dims) (px py pz : ℚ) (c : uint8),
        (s.length : Int) = dims.xDim * dims.yDim * dims.zDim → (∀ b ∈ s, b = c) →
        (1 < toInt px ∧ toInt px < dims.xDim - 3) →
        (1 < toInt py ∧ toInt py < dims.yDim - 3) →
        (1 < toInt pz ∧ toInt pz < dims.zDim - 3) →
        ∃ log : List Int, TricubicFl s px py pz dims = some ((c.val : ℚ), log) := by
  have hlen : (const10.length : Int) = (10 : Int) * 10 * 10 := by
    rw [const10, List.length_replicate]; norm_num
  have hc : ∀ b ∈ const10, b = (128 : uint8) := fun b hb => (List.mem_replicate.mp hb).2
  have hx : 1 < toInt (rnd 5.3) ∧ toInt (rnd 5.3) < 10 - 3 := by decide!
  have hy : 1 < toInt (rnd 2.7) ∧ toInt (rnd 2.7) < 10 - 3 := by decide!
  have hz : 1 < toInt (rnd 4.9) ∧ toInt (rnd 4.9) < 10 - 3 := by decide!
  have hv : (TricubicFl const10 (rnd 5.3) (rnd 2.7) (rnd 4.9) ⟨10, 10, 10⟩).map Prod.fst
      = some (9007199254740987 / 70368744177664) := by decide!
  refine ⟨hlen, hc, hx, hy, hz, hv, by norm_num, by norm_num, by decide!, by decide!,
    by decide!, fun h => ?_⟩
  obtain ⟨log, e⟩ := h const10 ⟨10, 10, 10⟩ (rnd 5.3) (rnd 2.7) (rnd 4.9) 128 hlen hc hx hy hz
  rw [e] at hv
  simp only [Option.map_some', Option.some.injEq] at hv
  have h128 : (((128 : uint8).val : Nat) : ℚ) = 128 := by decide!
  rw [h128] at hv
  norm_num at hv

/-- C10 (evaluation of the code at the failing input): on the (10,10,10) volume that is zero
except for the sample 255 at (5,5,5), `Trilinear` queried at (5.5, 5.0, 5.0), which passes the
linear threshold, reads the samples at offsets 444 .. 555, the cube with low corner (4,4,4),
and returns 0, not 127.5. -/
theorem C10_linear_midpoint_shifted :
    Trilinear delta10 5.5 5.0 5.0 ⟨10, 10, 10⟩
      = some (0, [444, 445, 454, 455, 544, 545, 554, 555]) ∧
    delta10.get? (LOC3D 10 10 5 5 5).toNat = some 255 ∧
    (0 : ℚ) ≠ 127.5 := by
  have t5 : toInt (5.0 : ℚ) = 5 := toInt_eq_of_bounds 5 (by norm_num) (by norm_num) (by norm_num)
  have t55 : toInt (5.5 : ℚ) = 5 := toInt_eq_of_bounds 5 (by norm_num) (by norm_num) (by norm_num)
  have hlen : (delta10.length : Int) = (10 : Int) * 10 * 10 := by
    rw [delta10, List.length_set, List.length_replicate]; norm_num
  have h555 : delta10.get? (LOC3D 10 10 5 5 5).toNat = some 255 := by
    have : (LOC3D 10 10 5 5 5).toNat = 555 := by decide
    rw [this, delta10, List.get?_eq_getElem?,
      List.getElem?_set_self (by rw [List.length_replicate]; decide)]
  refine ⟨?_, h555, by norm_num⟩
  rw [Trilinear_interior delta10 5.5 5.0 5.0 ⟨10, 10, 10⟩ hlen (by rw [t5, t55]; decide)]
  rw [t5, t55]
  have s444 : sampleD delta10 444 = 0 := sampleD_delta_ne 1000 555 255 444 (by decide)
  have s445 : sampleD delta10 445 = 0 := sampleD_delta_ne 1000 555 255 445 (by decide)
  simp only [linearVal, linearIdx, corner]
  norm_num [blend, s444, s445]

/-- C11: when at least one coordinate of the query point is negative, the boundary check
rejects the point: `Trilinear` returns exactly `0.0`, `Tricubic` (after delegating) returns
exactly `0.0`, and neither reads a sample. -/
theorem C11_negative_rejected (s : Volume) (dims : Dims) (px py pz : ℚ)
    (h : px < 0 ∨ py < 0 ∨ pz < 0) :
    Trilinear s px py pz dims = some (0, []) ∧ Tricubic s px py pz dims = some (0, []) := by
  have hx := toInt_nonpos_of_neg px
  have hy := toInt_nonpos_of_neg py
  have hz := toInt_nonpos_of_neg pz
  have hl : linearRejects dims (toInt px) (toInt py) (toInt pz) := by
    unfold linearRejects
    rcases h with h | h | h
    · have := hx h; omega
    · have := hy h; omega
    · have := hz h; omega
  have hc : cubicRejects dims (toInt px) (toInt py) (toInt pz) := by
    unfold cubicRejects
    rcases h with h | h | h
    · have := hx h; omega
    · have := hy h; omega
    · have := hz h; omega
  have e := Trilinear_rejected s px py pz dims hl
  exact ⟨e, (Tricubic_rejected s px py pz dims hc).trans e⟩

/-- Witness of C11: the 6x6x6 ramp volume queried at (-0.5, 2.5, 2.5). -/
theorem C11_negative_rejected_witness :
    Trilinear ramp6 (-0.5) 2.5 2.5 ⟨6, 6, 6⟩ = some (0, []) ∧
      Tricubic ramp6 (-0.5) 2.5 2.5 ⟨6, 6, 6⟩ = some (0, []) :=
  C11_negative_rejected ramp6 ⟨6, 6, 6⟩ (-0.5) 2.5 2.5 (Or.inl (by norm_num))

/-- C12: `Tricubic` applies no clamping.  On the 6x6x6 volume that is zero except for 255 at
(1,2,2), the query point (2.5, 2, 2), which passes the cubic threshold, gets the weights
-0.0625, 0.5625, 0.5625, -0.0625 on the samples 255, 0, 0, 0 along x and the value
-15.9375 < 0; on the volume with 255 at (2,2,2) and (3,2,2) the samples are 0, 255, 255, 0
and the value is 286.875 > 255. -/
theorem C12_cubic_overshoot :
    (∃ (s : Volume) (dims : Dims) (px py pz v : ℚ) (log : List Int),
      (s.length : Int) = dims.xDim * dims.yDim * dims.zDim ∧
      ¬ cubicRejects dims (toInt px) (toInt py) (toInt pz) ∧
      Tricubic s px py pz dims = some (v, log) ∧ v < 0) ∧
    (∃ (s : Volume) (dims : Dims) (px py pz v : ℚ) (log : List Int),
      (s.length : Int) = dims.xDim * dims.yDim * dims.zDim ∧
      ¬ cubicRejects dims (toInt px) (toInt py) (toInt pz) ∧
      Tricubic s px py pz dims = some (v, log) ∧ 255 < v) ∧
    (Tricubic edgeLow6 2.5 2 2 ⟨6, 6, 6⟩).map Prod.fst = some (-15.9375) ∧
    (Tricubic edgeHigh6 2.5 2 2 ⟨6, 6, 6⟩).map Prod.fst = some 286.875 := by
  have hrej : ¬ cubicRejects ⟨6, 6, 6⟩ (toInt 2.5) (toInt 2) (toInt 2) := by
    rw [toInt_two_half, toInt_two]; decide
  have hlo : (edgeLow6.length : Int) = (6 : Int) * 6 * 6 := by
    rw [edgeLow6, List.length_set, List.length_replicate]; norm_num
  have hhi : (edgeHigh6.length : Int) = (6 : Int) * 6 * 6 := by
    rw [edgeHigh6, List.length_set, List.length_set, List.length_replicate]; norm_num
  obtain ⟨u0, u1, u2, u3⟩ := catmullRom_half
  have hd : (2.5 : ℚ) - ((2 : Int) : ℚ) = 0.5 := by norm_num
  have hz : (2 : ℚ) - ((2 : Int) : ℚ) = 0 := by norm_num
  have hp : corner ⟨6, 6, 6⟩ 2 2 2 + 6 * 6 + 6 = 85 := by decide
  have elo := Tricubic_interior edgeLow6 2.5 2 2 ⟨6, 6, 6⟩ hlo hrej
  have ehi := Tricubic_interior edgeHigh6 2.5 2 2 ⟨6, 6, 6⟩ hhi hrej
  rw [toInt_two_half, toInt_two] at elo ehi
  simp only [hd, hz, stackVal_row, hp] at elo ehi
  have l85 : sampleD edgeLow6 85 = 255 := by
    rw [edgeLow6, sampleD_set_self _ 85 255 85 (by decide)
      (by rw [List.length_replicate]; decide)]
    decide
  have l86 : sampleD edgeLow6 (85 + 1) = 0 := by
    rw [edgeLow6, sampleD_set_ne _ _ _ _ (by decide), sampleD_replicate_zero]
  have l87 : sampleD edgeLow6 (85 + 2) = 0 := by
    rw [edgeLow6, sampleD_set_ne _ _ _ _ (by decide), sampleD_replicate_zero]
  have l88 : sampleD edgeLow6 (85 + 3) = 0 := by
    rw [edgeLow6, sampleD_set_ne _ _ _ _ (by decide), sampleD_replicate_zero]
  have h85 : sampleD edgeHigh6 85 = 0 := by
    rw [edgeHigh6, sampleD_set_ne _ _ _ _ (by decide), sampleD_set_ne _ _ _ _ (by decide),
      sampleD_replicate_zero]
  have h86 : sampleD edgeHigh6 (85 + 1) = 255 := by
    rw [edgeHigh6, sampleD_set_ne _ _ _ _ (by decide), sampleD_set_self _ 86 255 (85 + 1)
      (by decide) (by rw [List.length_replicate]; decide)]
    decide
  have h87 : sampleD edgeHigh6 (85 + 2) = 255 := by
    rw [edgeHigh6, sampleD_set_self _ 87 255 (85 + 2) (by decide)
      (by rw [List.length_set, List.length_replicate]; decide)]
    decide
  have h88 : sampleD edgeHigh6 (85 + 3) = 0 := by
    rw [edgeHigh6, sampleD_set_ne _ _ _ _ (by decide), sampleD_set_ne _ _ _ _ (by decide),
      sampleD_replicate_zero]
  have vlo : rowVal edgeLow6 (catmullRom 0.5) 85 = -15.9375 := by
    simp only [rowVal, u0, u1, u2, u3, l85, l86, l87, l88]; norm_num
  have vhi : rowVal edgeHigh6 (catmullRom 0.5) 85 = 286.875 := by
    simp only [rowVal, u0, u1, u2, u3, h85, h86, h87, h88]; norm_num
  rw [vlo] at elo
  rw [vhi] at ehi
  refine ⟨⟨edgeLow6, ⟨6, 6, 6⟩, 2.5, 2, 2, _, _, hlo, hrej, elo, by norm_num⟩,
    ⟨edgeHigh6, ⟨6, 6, 6⟩, 2.5, 2, 2, _, _, hhi, hrej, ehi, by norm_num⟩, ?_, ?_⟩
  · rw [elo]; rfl
  · rw [ehi]; rfl

/-- C13 (amended): at a query point whose integer parts `(x, y, z)` pass the cubic threshold,
in exact arithmetic the stacked weighted sum that `Tricubic` computes by walking the pointer
equals the triple sum over `i, j, k` in `0..3` of
`w[k] * v[j] * u[i] * sample(x-1+i, y-1+j, z-1+k)`; each of the 64 neighbourhood samples is
inside the buffer and is read exactly once, and the evaluation in double arithmetic makes
the same reads. -/
theorem C13_stacked_sum_is_triple_sum (s : Volume) (dims : Dims) (px py pz : ℚ)
    (hlen : (s.length : Int) = dims.xDim * dims.yDim * dims.zDim)
    (hx : 1 < toInt px ∧ toInt px < dims.xDim - 3)
    (hy : 1 < toInt py ∧ toInt py < dims.yDim - 3)
    (hz : 1 < toInt pz ∧ toInt pz < dims.zDim - 3) :
    ∃ log : List Int,
      Tricubic s px py pz dims =
        some (∑ k in Finset.range 4, ∑ j in Finset.range 4, ∑ i in Finset.range 4,
            catmullRom (pz - (toInt pz : ℚ)) k * catmullRom (py - (toInt py : ℚ)) j *
              catmullRom (px - (toInt px : ℚ)) i *
              voxel s dims (toInt px - 1 + (i : Int)) (toInt py - 1 + (j : Int))
                (toInt pz - 1 + (k : Int)), log) ∧
      log.length = 64 ∧
      (∃ vd : ℚ, TricubicFl s px py pz dims = some (vd, log)) ∧
      ∀ i j k : Nat, i < 4 → j < 4 → k < 4 →
        load s (LOC3D dims.xDim dims.yDim (toInt px - 1 + (i : Int)) (toInt py - 1 + (j : Int))
            (toInt pz - 1 + (k : Int)))
          = some (voxel s dims (toInt px - 1 + (i : Int)) (toInt py - 1 + (j : Int))
            (toInt pz - 1 + (k : Int))) ∧
        log.count (LOC3D dims.xDim dims.yDim (toInt px - 1 + (i : Int))
          (toInt py - 1 + (j : Int)) (toInt pz - 1 + (k : Int))) = 1 := by
  have hrej : ¬ cubicRejects dims (toInt px) (toInt py) (toInt pz) := by
    unfold cubicRejects; omega
  have e := Tricubic_interior s px py pz dims hlen hrej
  have hin := Tricubic_reads_loaded s px py pz dims _ _ e
  rw [stackVal_eq_voxel_sum] at e
  have hxy : 3 * dims.xDim + 3 < dims.xDim * dims.yDim := by nlinarith [hx.1, hx.2, hy.1, hy.2]
  have hnd := stackIdx_nodup dims.xDim (dims.xDim * dims.yDim)
    (corner dims (toInt px) (toInt py) (toInt pz)) (by omega) hxy
  refine ⟨_, e, stackIdx_length _ _ _, TricubicR_interior_reads rnd s px py pz dims hlen hrej,
    fun i j k hi hj hk => ?_⟩
  have hm := LOC3D_mem_stackIdx dims (toInt px) (toInt py) (toInt pz) i j k hi hj hk
  exact ⟨load_eq s _ (hin _ hm).1 (hin _ hm).2, List.count_eq_one_of_mem hnd hm⟩

/-- Witness of C13: the 6x6x6 ramp volume queried at (2.5, 2.5, 2.5). -/
theorem C13_stacked_sum_is_triple_sum_witness :
    ∃ log : List Int,
      Tricubic ramp6 2.5 2.5 2.5 ⟨6, 6, 6⟩ =
        some (∑ k in Finset.range 4, ∑ j in Finset.range 4, ∑ i in Finset.range 4,
            catmullRom (2.5 - (toInt 2.5 : ℚ)) k * catmullRom (2.5 - (toInt 2.5 : ℚ)) j *
              catmullRom (2.5 - (toInt 2.5 : ℚ)) i *
              voxel ramp6 ⟨6, 6, 6⟩ (toInt 2.5 - 1 + (i : Int)) (toInt 2.5 - 1 + (j : Int))
                (toInt 2.5 - 1 + (k : Int)), log) ∧
      log.length = 64 ∧
      (∃ vd : ℚ, TricubicFl ramp6 2.5 2.5 2.5 ⟨6, 6, 6⟩ = some (vd, log)) ∧
      ∀ i j k : Nat, i < 4 → j < 4 → k < 4 →
        load ramp6 (LOC3D 6 6 (toInt 2.5 - 1 + (i : Int)) (toInt 2.5 - 1 + (j : Int))
            (toInt 2.5 - 1 + (k : Int)))
          = some (voxel ramp6 ⟨6, 6, 6⟩ (toInt 2.5 - 1 + (i : Int)) (toInt 2.5 - 1 + (j : Int))
            (toInt 2.5 - 1 + (k : Int))) ∧
        log.count (LOC3D 6 6 (toInt 2.5 - 1 + (i : Int))
          (toInt 2.5 - 1 + (j : Int)) (toInt 2.5 - 1 + (k : Int))) = 1 :=
  C13_stacked_sum_is_triple_sum ramp6 ⟨6, 6, 6⟩ 2.5 2.5 2.5 (by simp [ramp6])
    (by rw [toInt_two_half]; decide) (by rw [toInt_two_half]; decide)
    (by rw [toInt_two_half]; decide)

/-- C13 (counterexample): in double arithmetic the stacked sum is not the reference triple
sum.  On the 6x6x6 ramp volume at the query point (2.1, 2.3, 2.7), which passes the cubic
threshold, `Tricubic` returns 7958704966493797 / 2^46 = 113.09999999999998, while the
triple sum of `w[k] * v[j] * u[i] * sample` accumulated in doubles over the same weights is
3979352483246899 / 2^45 = 113.1; the code's value is also neither the exact value of that
sum over the code's weights nor its exact value over the exact Catmull-Rom weights. -/
theorem C13_stacked_sum_differs_in_double :
    (ramp6.length : Int) = (6 : Int) * 6 * 6 ∧
    (1 < toInt (rnd 2.1) ∧ toInt (rnd 2.1) < 6 - 3) ∧
    (1 < toInt (rnd 2.3) ∧ toInt (rnd 2.3) < 6 - 3) ∧
    (1 < toInt (rnd 2.7) ∧ toInt (rnd 2.7) < 6 - 3) ∧
    (TricubicFl ramp6 (rnd 2.1) (rnd 2.3) (rnd 2.7) ⟨6, 6, 6⟩).map Prod.fst
      = some (7958704966493797 / 70368744177664) ∧
    tripleSumR rnd (catmullRomR rnd (rnd (rnd 2.1 - (toInt (rnd 2.1) : ℚ))))
        (catmullRomR rnd (rnd (rnd 2.3 - (toInt (rnd 2.3) : ℚ))))
        (catmullRomR rnd (rnd (rnd 2.7 - (toInt (rnd 2.7) : ℚ))))
        (fun i j k => voxel ramp6 ⟨6, 6, 6⟩ (toInt (rnd 2.1) - 1 + (i : Int))
          (toInt (rnd 2.3) - 1 + (j : Int)) (toInt (rnd 2.7) - 1 + (k : Int)))
      = 3979352483246899 / 35184372088832 ∧
    (7958704966493797 / 70368744177664 : ℚ) ≠ 3979352483246899 / 35184372088832 ∧
    tripleSumR id (catmullRomR rnd (rnd (rnd 2.1 - (toInt (rnd 2.1) : ℚ))))
        (catmullRomR rnd (rnd (rnd 2.3 - (toInt (rnd 2.3) : ℚ))))
        (catmullRomR rnd (rnd (rnd 2.7 - (toInt (rnd 2.7) : ℚ))))
        (fun i j k => voxel ramp6 ⟨6, 6, 6⟩ (toInt (rnd 2.1) - 1 + (i : Int))
          (toInt (rnd 2.3) - 1 + (j : Int)) (toInt (rnd 2.7) - 1 + (k : Int)))
      ≠ 7958704966493797 / 70368744177664 ∧
    tripleSumR id (catmullRom (rnd 2.1 - (toInt (rnd 2.1) : ℚ)))
        (catmullRom (rnd 2.3 - (toInt (rnd 2.3) : ℚ)))
        (catmullRom (rnd 2.7 - (toInt (rnd 2.7) : ℚ)))
        (fun i j k => voxel ramp6 ⟨6, 6, 6⟩ (toInt (rnd 2.1) - 1 + (i : Int))
          (toInt (rnd 2.3) - 1 + (j : Int)) (toInt (rnd 2.7) - 1 + (k : Int)))
      ≠ 7958704966493797 / 70368744177664 := by
  refine ⟨by simp [ramp6], by decide!, by decide!, by decide!, by decide!, by decide!,
    by norm_num, by decide!, by decide!⟩

/-- C14 (amended): at a query point whose integer parts `(x, y, z)` pass the linear
threshold, in exact arithmetic `Trilinear` returns the sum over `a, b, c` in `{0, 1}` of
`lx(a) * ly(b) * lz(c) * sample(x-1+a, y-1+b, z-1+c)` with `lx(0) = 1-dx`, `lx(1) = dx`
(likewise for `y` and `z`): the unit cube it blends has its low corner at the integer part
minus 1 on each axis, and its 8 corners are the samples read, in double arithmetic too. -/
theorem C14_linear_is_triple_sum (s : Volume) (dims : Dims) (px py pz : ℚ)
    (hlen : (s.length : Int) = dims.xDim * dims.yDim * dims.zDim)
    (hx : 1 < toInt px ∧ toInt px < dims.xDim - 1)
    (hy : 1 < toInt py ∧ toInt py < dims.yDim - 1)
    (hz : 1 < toInt pz ∧ toInt pz < dims.zDim - 1) :
    ∃ log : List Int,
      Trilinear s px py pz dims =
        some (∑ c in Finset.range 2, ∑ b in Finset.range 2, ∑ a in Finset.range 2,
            linWeight (px - (toInt px : ℚ)) a * linWeight (py - (toInt py : ℚ)) b *
              linWeight (pz - (toInt pz : ℚ)) c *
              voxel s dims (toInt px - 1 + (a : Int)) (toInt py - 1 + (b : Int))
                (toInt pz - 1 + (c : Int)), log) ∧
      log.length = 8 ∧
      (∃ vd : ℚ, TrilinearFl s px py pz dims = some (vd, log)) ∧
      ∀ a b c : Nat, a < 2 → b < 2 → c < 2 →
        LOC3D dims.xDim dims.yDim (toInt px - 1 + (a : Int)) (toInt py - 1 + (b : Int))
            (toInt pz - 1 + (c : Int)) ∈ log ∧
        load s (LOC3D dims.xDim dims.yDim (toInt px - 1 + (a : Int)) (toInt py - 1 + (b : Int))
            (toInt pz - 1 + (c : Int)))
          = some (voxel s dims (toInt px - 1 + (a : Int)) (toInt py - 1 + (b : Int))
            (toInt pz - 1 + (c : Int))) := by
  have hrej : ¬ linearRejects dims (toInt px) (toInt py) (toInt pz) := by
    unfold linearRejects; omega
  have e := Trilinear_interior s px py pz dims hlen hrej
  have hin := Trilinear_reads_loaded s px py pz dims _ _ e
  rw [linearVal_eq_sum] at e
  refine ⟨_, e, linearIdx_length _ _ _, TrilinearR_interior_reads rnd s px py pz dims hlen hrej,
    fun a b c ha hb hc => ?_⟩
  have hm := mem_linearIdx dims (toInt px) (toInt py) (toInt pz) a b c ha hb hc
  exact ⟨hm, load_eq s _ (hin _ hm).1 (hin _ hm).2⟩

/-- Witness of C14: the 6x6x6 ramp volume queried at (2.5, 2.5, 2.5). -/
theorem C14_linear_is_triple_sum_witness :
    ∃ log : List Int,
      Trilinear ramp6 2.5 2.5 2.5 ⟨6, 6, 6⟩ =
        some (∑ c in Finset.range 2, ∑ b in Finset.range 2, ∑ a in Finset.range 2,
            linWeight (2.5 - (toInt 2.5 : ℚ)) a * linWeight (2.5 - (toInt 2.5 : ℚ)) b *
              linWeight (2.5 - (toInt 2.5 : ℚ)) c *
              voxel ramp6 ⟨6, 6, 6⟩ (toInt 2.5 - 1 + (a : Int)) (toInt 2.5 - 1 + (b : Int))
                (toInt 2.5 - 1 + (c : Int)), log) ∧
      log.length = 8 ∧
      (∃ vd : ℚ, TrilinearFl ramp6 2.5 2.5 2.5 ⟨6, 6, 6⟩ = some (vd, log)) ∧
      ∀ a b c : Nat, a < 2 → b < 2 → c < 2 →
        LOC3D 6 6 (toInt 2.5 - 1 + (a : Int)) (toInt 2.5 - 1 + (b : Int))
            (toInt 2.5 - 1 + (c : Int)) ∈ log ∧
        load ramp6 (LOC3D 6 6 (toInt 2.5 - 1 + (a : Int)) (toInt 2.5 - 1 + (b : Int))
            (toInt 2.5 - 1 + (c : Int)))
          = some (voxel ramp6 ⟨6, 6, 6⟩ (toInt 2.5 - 1 + (a : Int)) (toInt 2.5 - 1 + (b : Int))
            (toInt 2.5 - 1 + (c : Int))) :=
  C14_linear_is_triple_sum ramp6 ⟨6, 6, 6⟩ 2.5 2.5 2.5 (by simp [ramp6])
    (by rw [toInt_two_half]; decide) (by rw [toInt_two_half]; decide)
    (by rw [toInt_two_half]; decide)
/-- C14 (counterexample): in double arithmetic the three-stage blend is not the sum over the
eight corners.  On the 6x6x6 ramp volume at the query point (2.1, 2.3, 2.7), which passes the
linear threshold, `Trilinear` returns 2466424483427123 / 2^45 = 70.099999999999994, while the
sum of `lx(a) * ly(b) * lz(c) * sample` accumulated in doubles is
4932848966854247 / 2^46 = 70.10000000000001; the code's value is not the exact value of that
sum either. -/
theorem C14_blend_differs_in_double :
    (ramp6.length : Int) = (6 : Int) * 6 * 6 ∧
    (1 < toInt (rnd 2.1) ∧ toInt (rnd 2.1) < 6 - 1) ∧
    (1 < toInt (rnd 2.3) ∧ toInt (rnd 2.3) < 6 - 1) ∧
    (1 < toInt (rnd 2.7) ∧ toInt (rnd 2.7) < 6 - 1) ∧
    (TrilinearFl ramp6 (rnd 2.1) (rnd 2.3) (rnd 2.7) ⟨6, 6, 6⟩).map Prod.fst
      = some (2466424483427123 / 35184372088832) ∧
    cornerSumR rnd (rnd (rnd 2.1 - (toInt (rnd 2.1) : ℚ)))
        (rnd (rnd 2.3 - (toInt (rnd 2.3) : ℚ))) (rnd (rnd 2.7 - (toInt (rnd 2.7) : ℚ)))
        (fun a b c => voxel ramp6 ⟨6, 6, 6⟩ (toInt (rnd 2.1) - 1 + (a : Int))
          (toInt (rnd 2.3) - 1 + (b : Int)) (toInt (rnd 2.7) - 1 + (c : Int)))
      = 4932848966854247 / 70368744177664 ∧
    (2466424483427123 / 35184372088832 : ℚ) ≠ 4932848966854247 / 70368744177664 ∧
    cornerSumR id (rnd 2.1 - (toInt (rnd 2.1) : ℚ)) (rnd 2.3 - (toInt (rnd 2.3) : ℚ))
        (rnd 2.7 - (toInt (rnd 2.7) : ℚ))
        (fun a b c => voxel ramp6 ⟨6, 6, 6⟩ (toInt (rnd 2.1) - 1 + (a : Int))
          (toInt (rnd 2.3) - 1 + (b : Int)) (toInt (rnd 2.7) - 1 + (c : Int)))
      ≠ 2466424483427123 / 35184372088832 := by
  refine ⟨by simp [ramp6], by decide!, by decide!, by decide!, by decide!, by decide!,
    by norm_num, by decide!⟩

/-- C15: the piecewise cubic built from the four weights is C1-continuous at the integer
sample points: the piece on `[n, n+1]` at `d = 1` and the piece on `[n+1, n+2]` at `d = 0`
both take the value `s[n+1]`, and both have the derivative `(s[n+2] - s[n]) / 2` there. -/
theorem C15_catmullRom_C1 (s : Int → ℚ) (n : Int) :
    cubic1D s n 1 = s (n + 1) ∧ cubic1D s (n + 1) 0 = s (n + 1) ∧
    HasDerivAt (cubic1D s n) ((s (n + 2) - s n) / 2) 1 ∧
    HasDerivAt (cubic1D s (n + 1)) ((s (n + 2) - s n) / 2) 0 := by
  refine ⟨?_, ?_, ?_, ?_⟩
  · simp only [cubic1D, catmullRom]; norm_num
  · simp only [cubic1D, catmullRom]; norm_num
  · rw [cubic1D_eq]
    convert hasDerivAt_cubic _ _ _ _ 1 using 1
    norm_num
    ring
  · rw [cubic1D_eq]
    convert hasDerivAt_cubic _ _ _ _ 0 using 1
    have e1 : n + 1 - 1 = n := by ring
    have e2 : n + 1 + 1 = n + 2 := by ring
    rw [e1, e2]
    norm_num
    ring

/-- C16: `Tricubic` reproduces affine fields exactly: on a volume whose samples satisfy
`sample(x,y,z) = a*x + b*y + c*z + e`, at every query point `(px, py, pz)` that passes the
cubic threshold on all three axes, `Tricubic` returns exactly `a*px + b*py + c*pz + e`. -/
theorem C16_cubic_affine_exact (s : Volume) (dims : Dims) (px py pz a b c e : ℚ)
    (hlen : (s.length : Int) = dims.xDim * dims.yDim * dims.zDim)
    (haff : ∀ x y z : Int, 0 ≤ x → x < dims.xDim → 0 ≤ y → y < dims.yDim → 0 ≤ z →
      z < dims.zDim → voxel s dims x y z = a * (x : ℚ) + b * (y : ℚ) + c * (z : ℚ) + e)
    (hx : 1 < toInt px ∧ toInt px < dims.xDim - 3)
    (hy : 1 < toInt py ∧ toInt py < dims.yDim - 3)
    (hz : 1 < toInt pz ∧ toInt pz < dims.zDim - 3) :
    ∃ log : List Int, Tricubic s px py pz dims = some (a * px + b * py + c * pz + e, log) := by
  have hrej : ¬ cubicRejects dims (toInt px) (toInt py) (toInt pz) := by
    unfold cubicRejects; omega
  have e1 := Tricubic_interior s px py pz dims hlen hrej
  rw [stackVal_eq_voxel_sum] at e1
  refine ⟨stackIdx dims.xDim (dims.xDim * dims.yDim)
    (corner dims (toInt px) (toInt py) (toInt pz)), ?_⟩
  rw [e1]
  congr 2
  have hsum : ∀ (u v w : Nat → ℚ),
      (∑ k in Finset.range 4, ∑ j in Finset.range 4, ∑ i in Finset.range 4,
        w k * v j * u i * voxel s dims (toInt px - 1 + (i : Int)) (toInt py - 1 + (j : Int))
          (toInt pz - 1 + (k : Int)))
      = ∑ k in Finset.range 4, ∑ j in Finset.range 4, ∑ i in Finset.range 4,
        w k * v j * u i * (a * ((toInt px : ℚ) - 1 + (i : ℚ)) + b * ((toInt py : ℚ) - 1 + (j : ℚ))
          + c * ((toInt pz : ℚ) - 1 + (k : ℚ)) + e) := by
    intro u v w
    refine Finset.sum_congr rfl fun k hk => Finset.sum_congr rfl fun j hj =>
      Finset.sum_congr rfl fun i hi => ?_
    have hk4 := Finset.mem_range.mp hk
    have hj4 := Finset.mem_range.mp hj
    have hi4 := Finset.mem_range.mp hi
    rw [haff _ _ _ (by omega) (by omega) (by omega) (by omega) (by omega) (by omega)]
    push_cast
    ring
  rw [hsum, sum64_affine _ _ _ (px - (toInt px : ℚ)) (py - (toInt py : ℚ))
    (pz - (toInt pz : ℚ)) a b c e _ _ _ (catmullRom_sum _) (catmullRom_moment _)
    (catmullRom_sum _) (catmullRom_moment _) (catmullRom_sum _) (catmullRom_moment _)]
  ring

/-- Witness of C16: the 6x6x6 ramp volume, whose sample at `(x, y, z)` is `x + 6*y + 36*z`,
queried at (2.5, 2.5, 2.5). -/
theorem C16_cubic_affine_exact_witness :
    ∃ log : List Int, Tricubic ramp6 2.5 2.5 2.5 ⟨6, 6, 6⟩
      = some (1 * 2.5 + 6 * 2.5 + 36 * 2.5 + 0, log) :=
  C16_cubic_affine_exact ramp6 ⟨6, 6, 6⟩ 2.5 2.5 2.5 1 6 36 0 (by simp [ramp6])
    (by
      intro x y z hx0 hx1 hy0 hy1 hz0 hz1
      simp only [] at hx1 hy1 hz1
      have h0 : 0 ≤ LOC3D 6 6 x y z := by unfold LOC3D; omega
      have h1 : LOC3D 6 6 x y z < ((216 : Nat) : Int) := by unfold LOC3D; push_cast; omega
      rw [voxel, ramp6, sampleD_ramp 216 (by decide) _ h0 h1]
      unfold LOC3D
      push_cast
      ring)
    (by rw [toInt_two_half]; decide) (by rw [toInt_two_half]; decide)
    (by rw [toInt_two_half]; decide)

/-- C17: the outermost shell of the volume never influences a result: two volumes with the
same dimension triple that agree on every voxel with `1 <= x <= nx-2`, `1 <= y <= ny-2` and
`1 <= z <= nz-2` get the same value (and the same reads) from `Tricubic` and from
`Trilinear`, at every query point. -/
theorem C17_shell_ignored (s1 s2 : Volume) (dims : Dims) (px py pz : ℚ)
    (hlen1 : (s1.length : Int) = dims.xDim * dims.yDim * dims.zDim)
    (hlen2 : (s2.length : Int) = dims.xDim * dims.yDim * dims.zDim)
    (hagree : ∀ x y z : Int, 1 ≤ x → x ≤ dims.xDim - 2 → 1 ≤ y → y ≤ dims.yDim - 2 → 1 ≤ z →
      z ≤ dims.zDim - 2 →
      s1.get? (LOC3D dims.xDim dims.yDim x y z).toNat
        = s2.get? (LOC3D dims.xDim dims.yDim x y z).toNat) :
    Tricubic s1 px py pz dims = Tricubic s2 px py pz dims ∧
      Trilinear s1 px py pz dims = Trilinear s2 px py pz dims := by
  have hv : ∀ x y z : Int, 1 ≤ x → x ≤ dims.xDim - 2 → 1 ≤ y → y ≤ dims.yDim - 2 → 1 ≤ z →
      z ≤ dims.zDim - 2 → voxel s1 dims x y z = voxel s2 dims x y z :=
    fun x y z a1 a2 b1 b2 c1 c2 => sampleD_congr s1 s2 _ (hagree x y z a1 a2 b1 b2 c1 c2)
  have lin : Trilinear s1 px py pz dims = Trilinear s2 px py pz dims := by
    by_cases hr : linearRejects dims (toInt px) (toInt py) (toInt pz)
    · rw [Trilinear_rejected s1 px py pz dims hr, Trilinear_rejected s2 px py pz dims hr]
    · rw [Trilinear_interior s1 px py pz dims hlen1 hr,
        Trilinear_interior s2 px py pz dims hlen2 hr, linearVal_eq_sum, linearVal_eq_sum]
      unfold linearRejects at hr
      congr 2
      refine Finset.sum_congr rfl fun c hc => Finset.sum_congr rfl fun b hb =>
        Finset.sum_congr rfl fun a ha => ?_
      have hc2 := Finset.mem_range.mp hc
      have hb2 := Finset.mem_range.mp hb
      have ha2 := Finset.mem_range.mp ha
      rw [hv _ _ _ (by omega) (by omega) (by omega) (by omega) (by omega) (by omega)]
  refine ⟨?_, lin⟩
  by_cases hr : cubicRejects dims (toInt px) (toInt py) (toInt pz)
  · rw [Tricubic_rejected s1 px py pz dims hr, Tricubic_rejected s2 px py pz dims hr, lin]
  · rw [Tricubic_interior s1 px py pz dims hlen1 hr,
      Tricubic_interior s2 px py pz dims hlen2 hr, stackVal_eq_voxel_sum, stackVal_eq_voxel_sum]
    unfold cubicRejects at hr
    congr 2
    refine Finset.sum_congr rfl fun k hk => Finset.sum_congr rfl fun j hj =>
      Finset.sum_congr rfl fun i hi => ?_
    have hk4 := Finset.mem_range.mp hk
    have hj4 := Finset.mem_range.mp hj
    have hi4 := Finset.mem_range.mp hi
    rw [hv _ _ _ (by omega) (by omega) (by omega) (by omega) (by omega) (by omega)]

/-- Witness of C17: the 6x6x6 ramp volume and the same volume with the two corner samples
(0,0,0) and (5,5,5) changed, queried at (2.5, 2.5, 2.5). -/
theorem C17_shell_ignored_witness :
    Tricubic ramp6 2.5 2.5 2.5 ⟨6, 6, 6⟩ = Tricubic ramp6shell 2.5 2.5 2.5 ⟨6, 6, 6⟩ ∧
      Trilinear ramp6 2.5 2.5 2.5 ⟨6, 6, 6⟩ = Trilinear ramp6shell 2.5 2.5 2.5 ⟨6, 6, 6⟩ :=
  C17_shell_ignored ramp6 ramp6shell ⟨6, 6, 6⟩ 2.5 2.5 2.5 (by simp [ramp6])
    (by simp [ramp6shell, ramp6])
    (by
      intro x y z hx0 hx1 hy0 hy1 hz0 hz1
      simp only [] at hx1 hy1 hz1
      have h0 : 0 ≠ (LOC3D 6 6 x y z).toNat := by unfold LOC3D; omega
      have h1 : 215 ≠ (LOC3D 6 6 x y z).toNat := by unfold LOC3D; omega
      rw [ramp6shell, List.get?_eq_getElem?, List.get?_eq_getElem?, List.getElem?_set_ne h1,
        List.getElem?_set_ne h0])

/-- C18: converting a coordinate to its integer part by truncation toward zero, as the code
does, gives the same result as using the mathematical floor: at every query point, negative
coordinates included, `Tricubic` and `Trilinear` each return the same value (and make the
same reads) under either conversion. -/
theorem C18_truncation_equals_floor (s : Volume) (dims : Dims) (px py pz : ℚ) :
    TricubicFloor s px py pz dims = Tricubic s px py pz dims ∧
      TrilinearFloor s px py pz dims = Trilinear s px py pz dims := by
  by_cases hneg : px < 0 ∨ py < 0 ∨ pz < 0
  · have hx := toInt_nonpos_of_neg px
    have hy := toInt_nonpos_of_neg py
    have hz := toInt_nonpos_of_neg pz
    have fx := floorInt_neg px
    have fy := floorInt_neg py
    have fz := floorInt_neg pz
    have hl : linearRejects dims (toInt px) (toInt py) (toInt pz) := by
      unfold linearRejects
      rcases hneg with h | h | h
      · have := hx h; omega
      · have := hy h; omega
      · have := hz h; omega
    have hc : cubicRejects dims (toInt px) (toInt py) (toInt pz) := by
      unfold cubicRejects
      rcases hneg with h | h | h
      · have := hx h; omega
      · have := hy h; omega
      · have := hz h; omega
    have hlf : linearRejects dims (floorInt px) (floorInt py) (floorInt pz) := by
      unfold linearRejects
      rcases hneg with h | h | h
      · have := fx h; omega
      · have := fy h; omega
      · have := fz h; omega
    have hcf : cubicRejects dims (floorInt px) (floorInt py) (floorInt pz) := by
      unfold cubicRejects
      rcases hneg with h | h | h
      · have := fx h; omega
      · have := fy h; omega
      · have := fz h; omega
    have e1 := Trilinear_rejected s px py pz dims hl
    have e2 := TrilinearFloor_rejected s px py pz dims hlf
    exact ⟨by rw [TricubicFloor_rejected s px py pz dims hcf,
      Tricubic_rejected s px py pz dims hc, e1, e2], by rw [e1, e2]⟩
  · push_neg at hneg
    have hx := floorInt_eq_toInt px hneg.1
    have hy := floorInt_eq_toInt py hneg.2.1
    have hz := floorInt_eq_toInt pz hneg.2.2
    exact ⟨TricubicFloor_of_eq s px py pz dims hx hy hz,
      TrilinearFloor_of_eq s px py pz dims hx hy hz⟩
/-- C19: when at least one of `nx`, `ny`, `nz` is 3 or less, `Trilinear` and `Tricubic` return
exactly `0.0` at every query point, whatever the samples are, and read nothing. -/
theorem C19_thin_volume_zero (s : Volume) (dims : Dims) (px py pz : ℚ)
    (h : dims.xDim ≤ 3 ∨ dims.yDim ≤ 3 ∨ dims.zDim ≤ 3) :
    Trilinear s px py pz dims = some (0, []) ∧ Tricubic s px py pz dims = some (0, []) := by
  have hl : linearRejects dims (toInt px) (toInt py) (toInt pz) := by
    unfold linearRejects; omega
  have hc : cubicRejects dims (toInt px) (toInt py) (toInt pz) := by
    unfold cubicRejects; omega
  have e := Trilinear_rejected s px py pz dims hl
  exact ⟨e, (Tricubic_rejected s px py pz dims hc).trans e⟩

/-- Witness of C19: a 3x6x6 volume queried at (1.5, 2.5, 2.5). -/
theorem C19_thin_volume_zero_witness :
    Trilinear ramp366 1.5 2.5 2.5 ⟨3, 6, 6⟩ = some (0, []) ∧
      Tricubic ramp366 1.5 2.5 2.5 ⟨3, 6, 6⟩ = some (0, []) :=
  C19_thin_volume_zero ramp366 ⟨3, 6, 6⟩ 1.5 2.5 2.5 (Or.inl (by decide))

end FrogSpawn
